import Mathlib

/-!
Verification of the xplain plan-analysis core: a shallow embedding of the
analyzer (`internal/analyzer`), diff engine (`internal/diff/diff.go`), and
configuration loader (`internal/config/config.go`), with theorems settling
the specification claims about them.

Go `float64` values are modelled as exact rationals (`ℚ`), except that the
row-estimate factor can be IEEE `+Inf`, which is modelled by the two-case
type `FloatVal`.  Go pointers that may be nil (`*model.Explain`,
`*model.PlanNode` in `Explain.Plan`, `*analyzer.PlanAnalysis`) are modelled
with `Option`; fallible functions return `Except String`.
-/

/-- A Go `float64` that is either a finite value or IEEE positive infinity
(the only non-finite value the analyzed code produces, via `math.Inf(1)`). -/
inductive FloatVal where
  | fin (q : ℚ)
  | inf
deriving DecidableEq, Repr

/-- Go `v >= q` where `v` may be `+Inf` (IEEE: `+Inf >= q` is true). -/
def FloatVal.geb (v : FloatVal) (q : ℚ) : Bool :=
  match v with
  | .fin x => decide (q ≤ x)
  | .inf => true

/-- Go `v <= q` where `v` may be `+Inf` (IEEE: `+Inf <= q` is false). -/
def FloatVal.leb (v : FloatVal) (q : ℚ) : Bool :=
  match v with
  | .fin x => decide (x ≤ q)
  | .inf => false

/-- Go `math.Abs(v - 1)` lifted to `FloatVal` (`|+Inf - 1| = +Inf`). -/
def FloatVal.distFromOne (v : FloatVal) : FloatVal :=
  match v with
  | .fin q => .fin |q - 1|
  | .inf => .inf

/-- Go `a > b` on possibly-infinite values (IEEE: `+Inf > +Inf` is false). -/
def FloatVal.gtb (a b : FloatVal) : Bool :=
  match a, b with
  | .inf, .inf => false
  | .inf, .fin _ => true
  | .fin _, .inf => false
  | .fin x, .fin y => decide (y < x)

namespace model

/-- `model.Buffers` from internal/model/plan.go: buffer usage counters. -/
structure Buffers where
  sharedHit : ℤ := 0
  sharedRead : ℤ := 0
  sharedDirtied : ℤ := 0
  sharedWritten : ℤ := 0
  localHit : ℤ := 0
  localRead : ℤ := 0
  localDirtied : ℤ := 0
  localWritten : ℤ := 0
  tempRead : ℤ := 0
  tempWritten : ℤ := 0
  ioReadTimeMs : ℚ := 0
  ioWriteTimeMs : ℚ := 0
  blockReadTimeMs : ℚ := 0
deriving DecidableEq, Repr

/-- The per-node fields of `model.PlanNode` other than `Children`.
`Extra` (a `map[string]any` of uninterpreted fields) is modelled as an
opaque association list. -/
structure PlanNodeData where
  id : String := ""
  nodeType : String := ""
  relationName : String := ""
  schema : String := ""
  aliasName : String := ""
  parentRelationship : String := ""
  startupCost : ℚ := 0
  totalCost : ℚ := 0
  planRows : ℚ := 0
  planWidth : ℚ := 0
  actualStartupTime : ℚ := 0
  actualTotalTime : ℚ := 0
  actualRows : ℚ := 0
  actualLoops : ℚ := 0
  workersPlanned : ℚ := 0
  workersLaunched : ℚ := 0
  output : List String := []
  filter : String := ""
  joinType : String := ""
  indexName : String := ""
  hashCond : String := ""
  mergeCond : String := ""
  sortKey : List String := []
  groupKey : List String := []
  buffers : Buffers := {}
  extra : List (String × String) := []
deriving DecidableEq, Repr

/-- `model.PlanNode`: one node of the execution-plan tree. -/
inductive PlanNode where
  | mk (data : PlanNodeData) (children : List PlanNode)

/-- The non-child fields of a plan node. -/
def PlanNode.data : PlanNode → PlanNodeData
  | .mk d _ => d

/-- The ordered child list of a plan node. -/
def PlanNode.children : PlanNode → List PlanNode
  | .mk _ cs => cs

mutual

/-- All nodes of a plan tree in preorder. -/
def PlanNode.allNodes : PlanNode → List PlanNode
  | .mk d cs => .mk d cs :: PlanNode.allNodesList cs

/-- All nodes of a forest of plan trees, in preorder. -/
def PlanNode.allNodesList : List PlanNode → List PlanNode
  | [] => []
  | t :: ts => t.allNodes ++ PlanNode.allNodesList ts

end

/-- `model.Explain`: the root of a parsed plan document.  The Go `Plan`
field is a possibly-nil pointer, hence `Option`. -/
structure Explain where
  plan : Option PlanNode
  planningTime : ℚ := 0
  executionTime : ℚ := 0
  settings : List (String × String) := []
  extra : List (String × String) := []

end model

namespace config

/-- `config.InsightConfig`: thresholds for insight generation. -/
structure InsightConfig where
  hotspotCriticalPercent : ℚ := 0
  hotspotWarningPercent : ℚ := 0
  seqScanBufferHint : ℤ := 0
  bufferWarningBlocks : ℤ := 0
  bufferCriticalBlocks : ℤ := 0
  nestedLoopWarnLoops : ℚ := 0
  nestedLoopCriticalLoops : ℚ := 0
  rowEstimateCriticalHigh : ℚ := 0
  rowEstimateCriticalLow : ℚ := 0
  spillNewBlocks : ℚ := 0
  parallelLimitKeep : ℚ := 0
deriving DecidableEq, Repr

/-- `config.DiffConfig`: thresholds for diff summaries. -/
structure DiffConfig where
  minSelfDeltaMs : ℚ := 0
  minPercentChange : ℚ := 0
  maxItems : ℤ := 0
  criticalDeltaMs : ℚ := 0
  warningDeltaMs : ℚ := 0
deriving DecidableEq, Repr

/-- `config.Config`: the process-wide tunable threshold set. -/
structure Config where
  insights : InsightConfig := {}
  diff : DiffConfig := {}
deriving DecidableEq, Repr

/-- `config.Default`: the built-in configuration. -/
def defaults : Config :=
  { insights :=
      { hotspotCriticalPercent := 2/5
        hotspotWarningPercent := 1/5
        seqScanBufferHint := 5000
        bufferWarningBlocks := 5000
        bufferCriticalBlocks := 50000
        nestedLoopWarnLoops := 100
        nestedLoopCriticalLoops := 10000
        rowEstimateCriticalHigh := 5
        rowEstimateCriticalLow := 1/5
        spillNewBlocks := 100
        parallelLimitKeep := 1/10 }
    diff :=
      { minSelfDeltaMs := 2
        minPercentChange := 5
        maxItems := 8
        criticalDeltaMs := 10
        warningDeltaMs := 5 } }

/-- `config.Apply` with the process state made explicit: `active` is the
configuration active before the call, the returned `Config` is the one
active after it.  `readFile` models `os.ReadFile` (the file system observed
at `path`), and `unmarshal` models `json.Unmarshal` seeded with
`Default()` (a successful parse layers the document over the defaults).
An empty path resets to the defaults; a read or parse failure returns an
error and leaves the active configuration untouched. -/
def Apply (path : String) (readFile : String → Except String String)
    (unmarshal : String → Except String Config) (active : Config) :
    Except String Unit × Config :=
  if path = "" then (Except.ok (), defaults)
  else
    match readFile path with
    | .error err => (Except.error ("read config: " ++ err), active)
    | .ok data =>
      match unmarshal data with
      | .error err => (Except.error ("parse config: " ++ err), active)
      | .ok cfg => (Except.ok (), cfg)

end config

namespace analyzer

/-- `analyzer.BufferTotals`: the buffer counters mirrored into `NodeStats`. -/
structure BufferTotals where
  sharedHit : ℤ := 0
  sharedRead : ℤ := 0
  sharedDirtied : ℤ := 0
  sharedWritten : ℤ := 0
  localHit : ℤ := 0
  localRead : ℤ := 0
  localDirtied : ℤ := 0
  localWritten : ℤ := 0
  tempRead : ℤ := 0
  tempWritten : ℤ := 0
deriving DecidableEq, Repr

/-- `BufferTotals.Total`: the sum of all buffer counters. -/
def BufferTotals.Total (b : BufferTotals) : ℤ :=
  b.sharedHit + b.sharedRead + b.sharedDirtied + b.sharedWritten +
    b.localHit + b.localRead + b.localDirtied + b.localWritten +
    b.tempRead + b.tempWritten

/-- One warning string produced by `deriveWarnings`, as structured data
(the payload stands for the numeric value interpolated into the Go format
string). -/
inductive Warning where
  | selfTime (pct : ℚ)
  | rowsHigher (factor : FloatVal)
  | rowsLower (factor : FloatVal)
  | heavyBuffers
deriving DecidableEq, Repr

/-- The per-node fields of `analyzer.NodeStats` other than `Children`.
`node` is the `*model.PlanNode` the stats were computed for. -/
structure NodeStatsData where
  node : model.PlanNode
  depth : ℕ := 0
  inclusiveTimeMs : ℚ := 0
  exclusiveTimeMs : ℚ := 0
  percentExclusive : ℚ := 0
  percentInclusive : ℚ := 0
  actualTotalRows : ℚ := 0
  estimatedRows : ℚ := 0
  rowEstimateFactor : FloatVal := .fin 0
  buffers : BufferTotals := {}
  warnings : List Warning := []

/-- `analyzer.NodeStats`: a plan node augmented with computed statistics. -/
inductive NodeStats where
  | mk (data : NodeStatsData) (children : List NodeStats)

/-- The non-child fields of a stats node. -/
def NodeStats.data : NodeStats → NodeStatsData
  | .mk d _ => d

/-- The child list of a stats node. -/
def NodeStats.children : NodeStats → List NodeStats
  | .mk _ cs => cs

/-- The inclusive time of a stats node. -/
def NodeStats.inclusiveTimeMs (t : NodeStats) : ℚ := t.data.inclusiveTimeMs

/-- The exclusive (self) time of a stats node. -/
def NodeStats.exclusiveTimeMs (t : NodeStats) : ℚ := t.data.exclusiveTimeMs

/-- The exclusive-time share of a stats node. -/
def NodeStats.percentExclusive (t : NodeStats) : ℚ := t.data.percentExclusive

/-- The epsilon used by `computeEstimateFactor` (Go `1e-9`). -/
def epsilon : ℚ := 1 / 1000000000

/-- `analyzer.computeEstimateFactor`: `actual/estimated` with the
degenerate-case policy for `estimated ≈ 0`. -/
def computeEstimateFactor (estimated actual : ℚ) : FloatVal :=
  if estimated ≤ epsilon then
    if actual ≤ epsilon then .fin 1 else .inf
  else
    .fin (actual / estimated)

/-- `analyzer.deriveWarnings`: heuristic warnings computed from a node's
stats record exactly as it stands when the function is called. -/
def deriveWarnings (stats : NodeStatsData) : List Warning :=
  (if (1/5 : ℚ) ≤ stats.percentExclusive then [Warning.selfTime stats.percentExclusive] else []) ++
    (if stats.rowEstimateFactor.geb 2 then [Warning.rowsHigher stats.rowEstimateFactor]
     else if stats.rowEstimateFactor.leb (1/2) then [Warning.rowsLower stats.rowEstimateFactor]
     else []) ++
    (if 0 < stats.buffers.Total ∧ (1/20 : ℚ) ≤ stats.percentExclusive then [Warning.heavyBuffers]
     else [])

/-- The effective loop count: `loops := node.ActualLoops; if loops <= 0 { loops = 1 }`. -/
def effLoops (actualLoops : ℚ) : ℚ :=
  if actualLoops ≤ 0 then 1 else actualLoops

/-- The buffer counters of a plan node copied into a `BufferTotals`,
as done inline in `buildStats`. -/
def copyBuffers (b : model.Buffers) : BufferTotals :=
  { sharedHit := b.sharedHit
    sharedRead := b.sharedRead
    sharedDirtied := b.sharedDirtied
    sharedWritten := b.sharedWritten
    localHit := b.localHit
    localRead := b.localRead
    localDirtied := b.localDirtied
    localWritten := b.localWritten
    tempRead := b.tempRead
    tempWritten := b.tempWritten }

mutual

/-- `analyzer.buildStats`: the bottom-up pass.  Children are built first;
exclusive time is inclusive time minus the children's inclusive total,
clamped at zero (the Go clamp body maps both the small-noise and the large
negative case to zero); warnings are derived from the record as built so
far, whose percent fields still hold their zero initial values. -/
def buildStats : model.PlanNode → ℕ → NodeStats
  | .mk nd cs, depth =>
    let loops := effLoops nd.actualLoops
    let inclusive := nd.actualTotalTime * loops
    let children := buildStatsList cs (depth + 1)
    let childTime := (children.map NodeStats.inclusiveTimeMs).sum
    let exclusiveRaw := inclusive - childTime
    let exclusive :=
      if exclusiveRaw < 0 then
        if |exclusiveRaw| < 1/1000000 then 0 else 0
      else exclusiveRaw
    let stats : NodeStatsData :=
      { node := .mk nd cs
        depth := depth
        inclusiveTimeMs := inclusive
        exclusiveTimeMs := exclusive
        percentExclusive := 0
        percentInclusive := 0
        actualTotalRows := nd.actualRows * loops
        estimatedRows := nd.planRows * loops
        rowEstimateFactor := computeEstimateFactor (nd.planRows * loops) (nd.actualRows * loops)
        buffers := copyBuffers nd.buffers
        warnings := [] }
    let stats := { stats with warnings := deriveWarnings stats }
    NodeStats.mk stats children

/-- `buildStats` mapped over a child list. -/
def buildStatsList : List model.PlanNode → ℕ → List NodeStats
  | [], _ => []
  | n :: ns, d => buildStats n d :: buildStatsList ns d

end

mutual

/-- `analyzer.annotateRatios`: the top-down pass that divides each node's
inclusive/exclusive time by the root total, when the total is positive. -/
def annotatePercents (total : ℚ) : NodeStats → NodeStats
  | .mk d cs =>
    let d' :=
      if 0 < total then
        { d with
          percentExclusive := d.exclusiveTimeMs / total
          percentInclusive := d.inclusiveTimeMs / total }
      else d
    NodeStats.mk d' (annotatePercentsList total cs)

/-- `annotatePercents` mapped over a child list. -/
def annotatePercentsList (total : ℚ) : List NodeStats → List NodeStats
  | [] => []
  | t :: ts => annotatePercents total t :: annotatePercentsList total ts

end

mutual

/-- `analyzer.flatten`: the stats tree as a preorder list. -/
def flatten : NodeStats → List NodeStats
  | .mk d cs => .mk d cs :: flattenList cs

/-- `flatten` over a forest, concatenated in order. -/
def flattenList : List NodeStats → List NodeStats
  | [] => []
  | t :: ts => flatten t ++ flattenList ts

end

/-- `analyzer.selectHotNodes`: candidates are the nodes with positive
exclusive share; they are sorted descending by share (`sort.Slice`,
modelled by insertion sort); up to five are kept, stopping at the first
below the 10% cutoff; if that leaves nothing but candidates exist, the
top `min 5 (number of candidates)` are taken regardless. -/
def selectHotNodes (nodes : List NodeStats) : List NodeStats :=
  if nodes.isEmpty then []
  else
    let candidates := nodes.filter (fun n => decide (0 < n.percentExclusive))
    let sorted := List.insertionSort (fun a b => b.percentExclusive ≤ a.percentExclusive) candidates
    let limit := min 5 sorted.length
    let out := (sorted.take limit).takeWhile (fun n => decide ((1/10 : ℚ) ≤ n.percentExclusive))
    if out.isEmpty ∧ ¬candidates.isEmpty then sorted.take limit else out

/-- The filter of `analyzer.selectDivergentNodes`: an infinite factor, or a
factor at least 2 or at most 0.5 with a nonzero row total. -/
def divergentCandidate (n : NodeStats) : Bool :=
  match n.data.rowEstimateFactor with
  | .inf => true
  | .fin f =>
    (decide ((2:ℚ) ≤ f) || decide (f ≤ (1/2 : ℚ))) &&
      (decide (0 < n.data.estimatedRows) || decide (0 < n.data.actualTotalRows))

/-- `analyzer.selectDivergentNodes`: filter, sort descending by
`|factor − 1|`, keep at most five. -/
def selectDivergentNodes (nodes : List NodeStats) : List NodeStats :=
  let out := nodes.filter divergentCandidate
  let sorted := List.insertionSort
    (fun a b => ¬ (b.data.rowEstimateFactor.distFromOne.gtb a.data.rowEstimateFactor.distFromOne = true))
    out
  sorted.take (min 5 sorted.length)

/-- `analyzer.PlanAnalysis`: derived metrics for a parsed plan. -/
structure PlanAnalysis where
  root : NodeStats
  planningTimeMs : ℚ := 0
  executionTimeMs : ℚ := 0
  totalTimeMs : ℚ := 0
  nodeCount : ℕ := 0
  hotNodes : List NodeStats := []
  divergentNodes : List NodeStats := []

/-- The body of `analyzer.Analyze` after its nil checks. -/
def analyzePlan (e : model.Explain) (p : model.PlanNode) : PlanAnalysis :=
  let root := buildStats p 0
  let totalTime := root.inclusiveTimeMs
  let root := annotatePercents totalTime root
  let allNodes := flatten root
  { root := root
    planningTimeMs := e.planningTime
    executionTimeMs := e.executionTime
    totalTimeMs := totalTime
    nodeCount := allNodes.length
    hotNodes := selectHotNodes allNodes
    divergentNodes := selectDivergentNodes allNodes }

/-- `analyzer.Analyze`: fails exactly when the explain document or its root
plan node is absent (nil), otherwise analyzes the plan. -/
def Analyze (explain : Option model.Explain) : Except String PlanAnalysis :=
  match explain with
  | none => .error "analyze: missing plan"
  | some e =>
    match e.plan with
    | none => .error "analyze: missing plan"
    | some p => .ok (analyzePlan e p)

end analyzer

namespace diff

/-- `diff.Options`: the sensitivity options of `Compare`. -/
structure Options where
  minSelfTimeDeltaMs : ℚ := 0
  minPercentChange : ℚ := 0
  maxItems : ℤ := 0
deriving DecidableEq, Repr

/-- `diff.SummaryDiff`: high-level execution differences. -/
structure SummaryDiff where
  baseExecutionMs : ℚ := 0
  targetExecutionMs : ℚ := 0
  deltaExecutionMs : ℚ := 0
  percentExecution : ℚ := 0
  basePlanningMs : ℚ := 0
  targetPlanningMs : ℚ := 0
  deltaPlanningMs : ℚ := 0
  percentPlanning : ℚ := 0
deriving DecidableEq, Repr

/-- `diff.Entry`: the delta for all nodes sharing one structural signature. -/
structure Entry where
  signature : String := ""
  baseSelfMs : ℚ := 0
  targetSelfMs : ℚ := 0
  deltaSelfMs : ℚ := 0
  percentChange : ℚ := 0
  baseRows : ℚ := 0
  targetRows : ℚ := 0
  baseRowFactor : FloatVal := .fin 0
  targetRowFactor : FloatVal := .fin 0
  baseBuffers : ℚ := 0
  targetBuffers : ℚ := 0
  deltaBuffers : ℚ := 0
  baseTempBlocks : ℚ := 0
  targetTempBlocks : ℚ := 0
  deltaTempBlocks : ℚ := 0
deriving DecidableEq, Repr

/-- `diff.Report` (narrative `Insights`, a rendering concern synthesized
from the capped entry lists and the active configuration, is not modelled). -/
structure Report where
  summary : SummaryDiff := {}
  regressions : List Entry := []
  improvements : List Entry := []
  options : Options := {}
deriving DecidableEq, Repr

/-- `diff.aggregated`: per-signature aggregation totals. -/
structure aggregated where
  selfMs : ℚ := 0
  actualRows : ℚ := 0
  estimatedRows : ℚ := 0
  buffers : ℚ := 0
  tempBlocks : ℚ := 0
deriving DecidableEq, Repr

/-- `diff.signature` on the per-node stats record: operator type joined
with relation, index and join type when present, separated by " · ". -/
def sigOfData (d : analyzer.NodeStatsData) : String :=
  let parts := [d.node.data.nodeType] ++
    (if d.node.data.relationName ≠ "" then [d.node.data.relationName] else []) ++
    (if d.node.data.indexName ≠ "" then [d.node.data.indexName] else []) ++
    (if d.node.data.joinType ≠ "" then [d.node.data.joinType] else [])
  String.intercalate " · " parts

/-- `diff.signature` of a stats node. -/
def signature (n : analyzer.NodeStats) : String := sigOfData n.data

/-- One node's contribution to its signature's aggregation: self time,
row totals, total buffers and temp blocks. -/
def contrib (d : analyzer.NodeStatsData) : aggregated :=
  { selfMs := d.exclusiveTimeMs
    actualRows := d.actualTotalRows
    estimatedRows := d.estimatedRows
    buffers := (d.buffers.Total : ℚ)
    tempBlocks := ((d.buffers.tempRead + d.buffers.tempWritten : ℤ) : ℚ) }

/-- `diff.aggregate`, read off at one signature: the map built by the Go
walk holds, at each signature, the field-wise sum of the contributions of
all tree nodes with that signature (in preorder). -/
def aggregate (root : analyzer.NodeStats) (sig : String) : aggregated :=
  let ds := ((analyzer.flatten root).map analyzer.NodeStats.data).filter
    (fun d => sigOfData d == sig)
  { selfMs := (ds.map (fun d => d.exclusiveTimeMs)).sum
    actualRows := (ds.map (fun d => d.actualTotalRows)).sum
    estimatedRows := (ds.map (fun d => d.estimatedRows)).sum
    buffers := (ds.map (fun d => ((d.buffers.Total : ℤ) : ℚ))).sum
    tempBlocks := (ds.map (fun d => ((d.buffers.tempRead + d.buffers.tempWritten : ℤ) : ℚ))).sum }

/-- The key set of the aggregation map: the distinct signatures of the
tree's nodes. -/
def sigKeys (root : analyzer.NodeStats) : List String :=
  (((analyzer.flatten root).map analyzer.NodeStats.data).map sigOfData).dedup

/-- `diff.unionKeys`: the union of both key sets, sorted ascending
(`sort.Strings`). -/
def unionKeys (base target : List String) : List String :=
  List.insertionSort (fun a b : String => ¬ b < a) ((base ++ target).dedup)

/-- `diff.ratio` (named `ratioValue` here): `actual/estimated` with the
same zero-guard as the analyzer's `computeEstimateFactor`. -/
def ratioValue (actual estimated : ℚ) : FloatVal :=
  if estimated ≤ analyzer.epsilon then
    if actual ≤ analyzer.epsilon then .fin 1 else .inf
  else
    .fin (actual / estimated)

/-- `diff.percentChange`: percent change from `base` to `target` with the
bounded policy when `|base|` is within epsilon of zero. -/
def percentChange (base target : ℚ) : ℚ :=
  if |base| ≤ analyzer.epsilon then
    if |target| ≤ analyzer.epsilon then 0
    else if 0 < target then 100
    else -100
  else
    (target - base) / base * 100

/-- `diff.buildEntry`: the diff entry for one signature. -/
def buildEntry (sig : String) (base target : aggregated) : Entry :=
  { signature := sig
    baseSelfMs := base.selfMs
    targetSelfMs := target.selfMs
    deltaSelfMs := target.selfMs - base.selfMs
    percentChange := percentChange base.selfMs target.selfMs
    baseRows := base.actualRows
    targetRows := target.actualRows
    baseRowFactor := ratioValue base.actualRows base.estimatedRows
    targetRowFactor := ratioValue target.actualRows target.estimatedRows
    baseBuffers := base.buffers
    targetBuffers := target.buffers
    deltaBuffers := target.buffers - base.buffers
    baseTempBlocks := base.tempBlocks
    targetTempBlocks := target.tempBlocks
    deltaTempBlocks := target.tempBlocks - base.tempBlocks }

/-- `diff.passesRegression`. -/
def passesRegression (entry : Entry) (opts : Options) : Bool :=
  decide (opts.minSelfTimeDeltaMs ≤ entry.deltaSelfMs) &&
    decide (opts.minPercentChange ≤ entry.percentChange)

/-- `diff.passesImprovement`. -/
def passesImprovement (entry : Entry) (opts : Options) : Bool :=
  decide (entry.deltaSelfMs ≤ -opts.minSelfTimeDeltaMs) &&
    decide (entry.percentChange ≤ -opts.minPercentChange)

/-- The classification loop of `Compare`: each entry goes to the
regressions when `passesRegression`, else to the improvements when
`passesImprovement`, else nowhere. -/
def classify (entries : List Entry) (opts : Options) : List Entry × List Entry :=
  match entries with
  | [] => ([], [])
  | e :: rest =>
    let tails := classify rest opts
    if passesRegression e opts then (e :: tails.1, tails.2)
    else if passesImprovement e opts then (tails.1, e :: tails.2)
    else tails

/-- `diff.applyDefaults`: non-positive options fall back to the active
configuration's diff thresholds (the `cfg` parameter models the
`config.Active()` snapshot). -/
def applyDefaults (opts : Options) (cfg : config.DiffConfig) : Options :=
  { minSelfTimeDeltaMs :=
      if opts.minSelfTimeDeltaMs ≤ 0 then cfg.minSelfDeltaMs else opts.minSelfTimeDeltaMs
    minPercentChange :=
      if opts.minPercentChange ≤ 0 then cfg.minPercentChange else opts.minPercentChange
    maxItems := if opts.maxItems ≤ 0 then cfg.maxItems else opts.maxItems }

/-- The entry list `Compare` classifies: one `buildEntry` per signature in
the union of the two aggregations' key sets. -/
def entriesFor (base target : analyzer.PlanAnalysis) : List Entry :=
  (unionKeys (sigKeys base.root) (sigKeys target.root)).map
    (fun s => buildEntry s (aggregate base.root s) (aggregate target.root s))

/-- The body of `diff.Compare` after its nil checks: aggregate both trees,
classify the union of signatures, sort regressions descending and
improvements ascending by delta self-time, truncate both lists to
`MaxItems`, and compute the summary deltas. -/
def compareReport (base target : analyzer.PlanAnalysis) (opts : Options)
    (cfg : config.DiffConfig) : Report :=
  let eopts := applyDefaults opts cfg
  let entries := entriesFor base target
  let classified := classify entries eopts
  let regressions := List.insertionSort
    (fun a b : Entry => b.deltaSelfMs ≤ a.deltaSelfMs) classified.1
  let improvements := List.insertionSort
    (fun a b : Entry => a.deltaSelfMs ≤ b.deltaSelfMs) classified.2
  let regressions :=
    if 0 < eopts.maxItems then regressions.take eopts.maxItems.toNat else regressions
  let improvements :=
    if 0 < eopts.maxItems then improvements.take eopts.maxItems.toNat else improvements
  { summary :=
      { baseExecutionMs := base.totalTimeMs
        targetExecutionMs := target.totalTimeMs
        deltaExecutionMs := target.totalTimeMs - base.totalTimeMs
        percentExecution := percentChange base.totalTimeMs target.totalTimeMs
        basePlanningMs := base.planningTimeMs
        targetPlanningMs := target.planningTimeMs
        deltaPlanningMs := target.planningTimeMs - base.planningTimeMs
        percentPlanning := percentChange base.planningTimeMs target.planningTimeMs }
    regressions := regressions
    improvements := improvements
    options := eopts }

/-- `diff.Compare`: fails exactly when either analysis is absent (nil); in
this embedding a present `PlanAnalysis` always carries its root, so the Go
`Root == nil` check cannot fire separately. -/
def Compare (base target : Option analyzer.PlanAnalysis) (opts : Options)
    (cfg : config.DiffConfig) : Except String Report :=
  match base with
  | none => .error "diff: base analysis missing"
  | some b =>
    match target with
    | none => .error "diff: target analysis missing"
    | some t => .ok (compareReport b t opts cfg)

end diff

namespace analyzer

/-- The inclusive time a node contributes, read directly off the plan node:
`actualTotalTime * max(actualLoops, 1)`. -/
def inclTime (p : model.PlanNode) : ℚ :=
  p.data.actualTotalTime * effLoops p.data.actualLoops

/-- Every node's children report no more inclusive time than the node
itself, so `buildStats` never clamps a negative exclusive time. -/
def childrenWithinParent (p : model.PlanNode) : Prop :=
  ∀ q ∈ p.allNodes, (q.children.map inclTime).sum ≤ inclTime q

/-- The sum of the exclusive times of every node of a stats tree. -/
def sumExclusive (t : NodeStats) : ℚ :=
  ((flatten t).map NodeStats.exclusiveTimeMs).sum

/-- The stats record `buildStats` produces for one node, expressed
directly in terms of that plan node (children enter only through the sum
of their inclusive times). -/
def builtData (q : model.PlanNode) (dep : ℕ) : NodeStatsData :=
  let loops := effLoops q.data.actualLoops
  let inclusive := q.data.actualTotalTime * loops
  let childTime := (q.children.map inclTime).sum
  let exclusiveRaw := inclusive - childTime
  let exclusive :=
    if exclusiveRaw < 0 then
      if |exclusiveRaw| < 1/1000000 then 0 else 0
    else exclusiveRaw
  let stats : NodeStatsData :=
    { node := q
      depth := dep
      inclusiveTimeMs := inclusive
      exclusiveTimeMs := exclusive
      percentExclusive := 0
      percentInclusive := 0
      actualTotalRows := q.data.actualRows * loops
      estimatedRows := q.data.planRows * loops
      rowEstimateFactor := computeEstimateFactor (q.data.planRows * loops) (q.data.actualRows * loops)
      buffers := copyBuffers q.data.buffers
      warnings := [] }
  { stats with warnings := deriveWarnings stats }

/-- What `annotatePercents` does to a single stats record. -/
def annD (total : ℚ) (d : NodeStatsData) : NodeStatsData :=
  if 0 < total then
    { d with
      percentExclusive := d.exclusiveTimeMs / total
      percentInclusive := d.inclusiveTimeMs / total }
  else d

/-- The row-estimate-factor warnings alone, as a function of the factor. -/
def rowWarnings (f : FloatVal) : List Warning :=
  if f.geb 2 then [Warning.rowsHigher f]
  else if f.leb (1/2) then [Warning.rowsLower f]
  else []

/-- The node carries a self-time warning. -/
def hasSelfTimeWarning (n : NodeStats) : Prop :=
  ∃ q, Warning.selfTime q ∈ n.data.warnings

/-- The node carries a row-estimate warning (either direction). -/
def hasRowsWarning (n : NodeStats) : Prop :=
  (∃ f, Warning.rowsHigher f ∈ n.data.warnings) ∨
    (∃ f, Warning.rowsLower f ∈ n.data.warnings)

/-- The node carries a heavy-buffer-usage warning. -/
def hasBufferWarning (n : NodeStats) : Prop :=
  Warning.heavyBuffers ∈ n.data.warnings

/-- Every node of the plan carries no runtime statistics: zero actual
time, rows and loops, and zeroed buffer counters. -/
def NoRuntimeStats (p : model.PlanNode) : Prop :=
  ∀ q ∈ p.allNodes, q.data.actualTotalTime = 0 ∧ q.data.actualRows = 0 ∧
    q.data.actualLoops = 0 ∧ q.data.buffers = {}

mutual

/-- The plan tree reconstructed from a stats tree: each node's recorded
payload with the recursively reconstructed children. -/
def stripStats : NodeStats → model.PlanNode
  | .mk d cs => .mk d.node.data (stripStatsList cs)

/-- `stripStats` over a child list. -/
def stripStatsList : List NodeStats → List model.PlanNode
  | [] => []
  | t :: ts => stripStats t :: stripStatsList ts

end

end analyzer

namespace diff

mutual

/-- Two stats trees that differ only by reordering sibling lists: the
node payloads match and the child forests are related by `ForestPerm`. -/
inductive SiblingPerm : analyzer.NodeStats → analyzer.NodeStats → Prop where
  | node (d : analyzer.NodeStatsData) (cs es : List analyzer.NodeStats) :
      ForestPerm cs es → SiblingPerm (.mk d cs) (.mk d es)

/-- Permutations of a forest whose elements are themselves related by
`SiblingPerm` (the constructors mirror `List.Perm`). -/
inductive ForestPerm : List analyzer.NodeStats → List analyzer.NodeStats → Prop where
  | nil : ForestPerm [] []
  | cons (t t' : analyzer.NodeStats) (l l' : List analyzer.NodeStats) :
      SiblingPerm t t' → ForestPerm l l' → ForestPerm (t :: l) (t' :: l')
  | swap (t u : analyzer.NodeStats) (l : List analyzer.NodeStats) :
      ForestPerm (t :: u :: l) (u :: t :: l)
  | trans (l m n : List analyzer.NodeStats) :
      ForestPerm l m → ForestPerm m n → ForestPerm l n

end

end diff

/-! ## Concrete inputs used by witnesses and counterexamples -/

namespace examples

/-- A single scan node: estimated rows 100, actual rows 100, 5 ms, 1 loop
(the spec's end-to-end scenario). -/
def scanNode : model.PlanNode :=
  .mk { nodeType := "Seq Scan", planRows := 100, actualTotalTime := 5,
        actualRows := 100, actualLoops := 1 } []

/-- An explain document holding only `scanNode`. -/
def scanExplain : model.Explain := { plan := some scanNode }

/-- A plan whose child reports more inclusive time (5 ms) than its parent
(1 ms), triggering the clamp. -/
def clampPlan : model.PlanNode :=
  .mk { nodeType := "Limit", actualTotalTime := 1, actualLoops := 1 }
    [.mk { nodeType := "Seq Scan", actualTotalTime := 5, actualLoops := 1 } []]

/-- An explain document holding `clampPlan`. -/
def clampExplain : model.Explain := { plan := some clampPlan }

/-- A plan whose root reports zero time while its child reports 5 ms of
self time: the root's inclusive total is zero, so no node gets a positive
percent-exclusive share. -/
def zeroRootPlan : model.PlanNode :=
  .mk { nodeType := "Limit", actualTotalTime := 0, actualLoops := 1 }
    [.mk { nodeType := "Seq Scan", actualTotalTime := 5, actualLoops := 1 } []]

/-- An explain document holding `zeroRootPlan`. -/
def zeroRootExplain : model.Explain := { plan := some zeroRootPlan }

/-- A two-node plan with no runtime statistics at all. -/
def noStatsPlan : model.PlanNode :=
  .mk { nodeType := "Limit", planRows := 7 }
    [.mk { nodeType := "Seq Scan", planRows := 9 } []]

/-- An explain document holding `noStatsPlan`. -/
def noStatsExplain : model.Explain := { plan := some noStatsPlan }

/-- A one-node analyzed tree whose node has signature "Seq Scan" and the
given self time. -/
def selfStats (selfMs : ℚ) : analyzer.NodeStats :=
  .mk { node := .mk { nodeType := "Seq Scan" } [], exclusiveTimeMs := selfMs } []

/-- A base analysis whose only signature has 2 ms of self time. -/
def baseAnalysis : analyzer.PlanAnalysis := { root := selfStats 2 }

/-- A target analysis whose only signature has 12 ms of self time. -/
def targetAnalysis : analyzer.PlanAnalysis := { root := selfStats 12 }

/-- First child used by the sibling-permutation witness. -/
def permChildA : analyzer.NodeStats :=
  .mk { node := .mk { nodeType := "Seq Scan", relationName := "users" } [],
        exclusiveTimeMs := 3, actualTotalRows := 30 } []

/-- Second child used by the sibling-permutation witness. -/
def permChildB : analyzer.NodeStats :=
  .mk { node := .mk { nodeType := "Index Scan" } [],
        exclusiveTimeMs := 4, actualTotalRows := 40 } []

/-- The shared parent payload of the sibling-permutation witness. -/
def permParentData : analyzer.NodeStatsData :=
  { node := .mk { nodeType := "Hash Join" } [], exclusiveTimeMs := 1 }

/-- The witness tree with children in original order. -/
def permTreeA : analyzer.NodeStats := .mk permParentData [permChildA, permChildB]

/-- The witness tree with the two children swapped. -/
def permTreeB : analyzer.NodeStats := .mk permParentData [permChildB, permChildA]

end examples

/-! ## Induction principles and basic structural lemmas -/

/-- Induction over a plan tree with the hypothesis available for all
children. -/
theorem model.planNodeInd (motive : model.PlanNode → Prop)
    (h : ∀ d cs, (∀ c ∈ cs, motive c) → motive (.mk d cs)) : ∀ t, motive t :=
  fun t =>
    @model.PlanNode.rec motive (fun l => ∀ x ∈ l, motive x)
      (fun d cs ih => h d cs ih)
      (fun x hx => absurd hx (List.not_mem_nil x))
      (fun a as ha has x hx => by
        rcases List.mem_cons.mp hx with h1 | h2
        · exact h1 ▸ ha
        · exact has x h2)
      t

/-- Induction over a stats tree with the hypothesis available for all
children. -/
theorem analyzer.nodeStatsInd (motive : analyzer.NodeStats → Prop)
    (h : ∀ d cs, (∀ c ∈ cs, motive c) → motive (.mk d cs)) : ∀ t, motive t :=
  fun t =>
    @analyzer.NodeStats.rec motive (fun l => ∀ x ∈ l, motive x)
      (fun d cs ih => h d cs ih)
      (fun x hx => absurd hx (List.not_mem_nil x))
      (fun a as ha has x hx => by
        rcases List.mem_cons.mp hx with h1 | h2
        · exact h1 ▸ ha
        · exact has x h2)
      t

namespace analyzer

theorem data_mk (d : NodeStatsData) (cs : List NodeStats) :
    (NodeStats.mk d cs).data = d := rfl

theorem children_mk (d : NodeStatsData) (cs : List NodeStats) :
    (NodeStats.mk d cs).children = cs := rfl

theorem buildStatsList_eq_map (ns : List model.PlanNode) (d : ℕ) :
    buildStatsList ns d = ns.map (fun n => buildStats n d) := by
  induction ns with
  | nil => simp [buildStatsList]
  | cons n ns ih => simp [buildStatsList, ih]

theorem annotatePercentsList_eq_map (total : ℚ) (ts : List NodeStats) :
    annotatePercentsList total ts = ts.map (annotatePercents total) := by
  induction ts with
  | nil => simp [annotatePercentsList]
  | cons t ts ih => simp [annotatePercentsList, ih]

theorem flatten_mk (d : NodeStatsData) (cs : List NodeStats) :
    flatten (.mk d cs) = .mk d cs :: flattenList cs := by
  simp [flatten]

theorem flattenList_cons (t : NodeStats) (ts : List NodeStats) :
    flattenList (t :: ts) = flatten t ++ flattenList ts := by
  simp [flattenList]

end analyzer

/-! ## C3: row-estimate factor policy -/

/-- C3: the row-estimate factor used by the Analyzer
(`computeEstimateFactor`) and the Diff Engine (`ratio`) satisfies: the two
functions agree; when the estimate is within epsilon of zero and the
actual is too the factor is 1; when the estimate is within epsilon of zero
and the actual is positive (beyond epsilon) the factor is +infinity;
otherwise the factor is `actual / estimated`, so estimated 10 and
actual 20 give 2. -/
theorem estimate_factor_policy (estimated actual : ℚ)
    (hest : 0 ≤ estimated) (hact : 0 ≤ actual) :
    diff.ratioValue actual estimated = analyzer.computeEstimateFactor estimated actual ∧
    (estimated ≤ analyzer.epsilon → actual ≤ analyzer.epsilon →
      analyzer.computeEstimateFactor estimated actual = .fin 1) ∧
    (estimated ≤ analyzer.epsilon → analyzer.epsilon < actual →
      analyzer.computeEstimateFactor estimated actual = .inf) ∧
    (analyzer.epsilon < estimated →
      analyzer.computeEstimateFactor estimated actual = .fin (actual / estimated)) ∧
    analyzer.computeEstimateFactor 10 20 = .fin 2 := by
  refine ⟨rfl, ?_, ?_, ?_, ?_⟩
  · intro h1 h2
    simp [analyzer.computeEstimateFactor, h1, h2]
  · intro h1 h2
    simp [analyzer.computeEstimateFactor, h1, not_le.mpr h2]
  · intro h1
    simp [analyzer.computeEstimateFactor, not_le.mpr h1]
  · norm_num [analyzer.computeEstimateFactor, analyzer.epsilon]

/-- Witness for C3 at concrete inputs: estimated 0 / actual 0 gives 1,
estimated 0 / actual 5 gives +infinity, estimated 10 / actual 20 gives 2,
and the diff engine's ratio agrees at 10/20. -/
theorem estimate_factor_policy_witness :
    analyzer.computeEstimateFactor 0 0 = .fin 1 ∧
    analyzer.computeEstimateFactor 0 5 = .inf ∧
    analyzer.computeEstimateFactor 10 20 = .fin 2 ∧
    diff.ratioValue 20 10 = analyzer.computeEstimateFactor 10 20 := by
  have h00 := estimate_factor_policy 0 0 (by norm_num) (by norm_num)
  have h05 := estimate_factor_policy 0 5 (by norm_num) (by norm_num)
  have h20 := estimate_factor_policy 10 20 (by norm_num) (by norm_num)
  exact ⟨h00.2.1 (by norm_num [analyzer.epsilon]) (by norm_num [analyzer.epsilon]),
    h05.2.2.1 (by norm_num [analyzer.epsilon]) (by norm_num [analyzer.epsilon]),
    h20.2.2.2.2, h20.1⟩

/-! ## C4: percent-change policy -/

/-- C4: the diff engine's percent change satisfies: when `|base|` is
within epsilon of zero the result is 0 if `|target|` is too, +100 if the
target is positive (beyond epsilon), −100 if negative; otherwise it is
`(target − base) / base * 100`, so base 10 and target 15 give 50. -/
theorem percent_change_policy (base target : ℚ) :
    (|base| ≤ analyzer.epsilon → |target| ≤ analyzer.epsilon →
      diff.percentChange base target = 0) ∧
    (|base| ≤ analyzer.epsilon → analyzer.epsilon < |target| → 0 < target →
      diff.percentChange base target = 100) ∧
    (|base| ≤ analyzer.epsilon → analyzer.epsilon < |target| → target < 0 →
      diff.percentChange base target = -100) ∧
    (analyzer.epsilon < |base| →
      diff.percentChange base target = (target - base) / base * 100) ∧
    diff.percentChange 10 15 = 50 := by
  refine ⟨?_, ?_, ?_, ?_, ?_⟩
  · intro h1 h2
    simp [diff.percentChange, h1, h2]
  · intro h1 h2 h3
    simp [diff.percentChange, h1, not_le.mpr h2, h3]
  · intro h1 h2 h3
    have : ¬ 0 < target := by linarith
    simp [diff.percentChange, h1, not_le.mpr h2, this]
  · intro h1
    simp [diff.percentChange, not_le.mpr h1]
  · norm_num [diff.percentChange, analyzer.epsilon]

/-- Witness for C4 at concrete inputs: 0→0 gives 0, 0→5 gives 100,
0→−5 gives −100, 10→15 gives 50. -/
theorem percent_change_policy_witness :
    diff.percentChange 0 0 = 0 ∧ diff.percentChange 0 5 = 100 ∧
    diff.percentChange 0 (-5) = -100 ∧ diff.percentChange 10 15 = 50 := by
  have h00 := percent_change_policy 0 0
  have h05 := percent_change_policy 0 5
  have h0m := percent_change_policy 0 (-5)
  have h15 := percent_change_policy 10 15
  exact ⟨h00.1 (by norm_num [analyzer.epsilon]) (by norm_num [analyzer.epsilon]),
    h05.2.1 (by norm_num [analyzer.epsilon]) (by norm_num [analyzer.epsilon]) (by norm_num),
    h0m.2.2.1 (by norm_num [analyzer.epsilon]) (by norm_num [analyzer.epsilon]) (by norm_num),
    h15.2.2.2.2⟩

/-! ## C8: configuration load -/

/-- C8: `config.Apply` with an empty path succeeds and resets the active
configuration to the built-in defaults; with a nonempty path, a read
failure or a parse failure returns an error and leaves the active
configuration exactly as it was. -/
theorem config_apply_policy (path : String)
    (readFile : String → Except String String)
    (unmarshal : String → Except String config.Config) (active : config.Config) :
    (path = "" →
      config.Apply path readFile unmarshal active = (Except.ok (), config.defaults)) ∧
    (∀ err, path ≠ "" → readFile path = .error err →
      config.Apply path readFile unmarshal active =
        (Except.error ("read config: " ++ err), active)) ∧
    (∀ data err, path ≠ "" → readFile path = .ok data → unmarshal data = .error err →
      config.Apply path readFile unmarshal active =
        (Except.error ("parse config: " ++ err), active)) := by
  refine ⟨?_, ?_, ?_⟩
  · intro h
    simp [config.Apply, h]
  · intro err hne hread
    simp [config.Apply, hne, hread]
  · intro data err hne hread hparse
    simp [config.Apply, hne, hread, hparse]

/-- Witness for C8: a failing read on a nonempty path reports an error and
keeps the prior active configuration; an empty path resets to defaults. -/
theorem config_apply_policy_witness :
    config.Apply "xplain.json" (fun _ => .error "no such file")
        (fun _ => .ok config.defaults) ({} : config.Config) =
      (Except.error "read config: no such file", ({} : config.Config)) ∧
    config.Apply "" (fun _ => .error "no such file")
        (fun _ => .ok config.defaults) ({} : config.Config) =
      (Except.ok (), config.defaults) := by
  have h1 := config_apply_policy "xplain.json" (fun _ => .error "no such file")
    (fun _ => .ok config.defaults) ({} : config.Config)
  have h2 := config_apply_policy "" (fun _ => .error "no such file")
    (fun _ => .ok config.defaults) ({} : config.Config)
  exact ⟨h1.2.1 "no such file" (by decide) rfl, h2.1 rfl⟩


/-! ## Characterization of the built stats tree -/

namespace analyzer

theorem builtData_inclusive (q : model.PlanNode) (dep : ℕ) :
    (builtData q dep).inclusiveTimeMs = inclTime q := by
  simp [builtData, inclTime]

theorem builtData_node (q : model.PlanNode) (dep : ℕ) :
    (builtData q dep).node = q := by
  simp [builtData]

theorem builtData_pct (q : model.PlanNode) (dep : ℕ) :
    (builtData q dep).percentExclusive = 0 ∧ (builtData q dep).percentInclusive = 0 := by
  simp [builtData]

theorem builtData_exclusive (q : model.PlanNode) (dep : ℕ) :
    (builtData q dep).exclusiveTimeMs =
      (if inclTime q - (q.children.map inclTime).sum < 0 then 0
       else inclTime q - (q.children.map inclTime).sum) := by
  by_cases h : inclTime q - (q.children.map inclTime).sum < 0
  · simp only [builtData, inclTime]
    split <;> simp_all [inclTime]
  · simp only [builtData, inclTime] at h ⊢
    split <;> simp_all [inclTime]

theorem deriveWarnings_zero_pct (d : NodeStatsData) (h : d.percentExclusive = 0) :
    deriveWarnings d = rowWarnings d.rowEstimateFactor := by
  have h1 : ¬ ((1/5 : ℚ) ≤ d.percentExclusive) := by rw [h]; norm_num
  have h2 : ¬ (0 < d.buffers.Total ∧ (1/20 : ℚ) ≤ d.percentExclusive) := by
    rw [h]; rintro ⟨-, hc⟩; norm_num at hc
  unfold deriveWarnings rowWarnings
  rw [if_neg h1, if_neg h2]
  simp

theorem builtData_warnings (q : model.PlanNode) (dep : ℕ) :
    (builtData q dep).warnings = rowWarnings (builtData q dep).rowEstimateFactor := by
  simp only [builtData]
  rw [deriveWarnings_zero_pct]
  rfl

theorem buildStats_data : ∀ (p : model.PlanNode) (d : ℕ),
    (buildStats p d).data = builtData p d := by
  intro p
  induction p using model.planNodeInd with
  | _ nd cs ih =>
    intro d
    have hmap : (buildStatsList cs (d + 1)).map NodeStats.inclusiveTimeMs =
        cs.map inclTime := by
      rw [buildStatsList_eq_map, List.map_map]
      refine List.map_congr_left ?_
      intro c hc
      show NodeStats.inclusiveTimeMs (buildStats c (d + 1)) = inclTime c
      rw [NodeStats.inclusiveTimeMs, ih c hc (d + 1), builtData_inclusive]
    show (buildStats (.mk nd cs) d).data = builtData (.mk nd cs) d
    simp only [buildStats, hmap, data_mk]
    simp [builtData, inclTime, model.PlanNode.data, model.PlanNode.children, effLoops]

theorem buildStats_children (nd : model.PlanNodeData) (cs : List model.PlanNode) (d : ℕ) :
    (buildStats (.mk nd cs) d).children = buildStatsList cs (d + 1) := by
  simp [buildStats, children_mk]

theorem mem_flattenList (n : NodeStats) (ts : List NodeStats) :
    n ∈ flattenList ts ↔ ∃ t ∈ ts, n ∈ flatten t := by
  induction ts with
  | nil => simp [flattenList]
  | cons t ts ih => simp [flattenList_cons, ih]

theorem mem_allNodesList (q : model.PlanNode) (ts : List model.PlanNode) :
    q ∈ model.PlanNode.allNodesList ts ↔ ∃ t ∈ ts, q ∈ t.allNodes := by
  induction ts with
  | nil => simp [model.PlanNode.allNodesList]
  | cons t ts ih => simp [model.PlanNode.allNodesList, ih]

theorem self_mem_allNodes (p : model.PlanNode) : p ∈ p.allNodes := by
  cases p with
  | mk nd cs => simp [model.PlanNode.allNodes]

theorem mem_flatten_build : ∀ (p : model.PlanNode) (d : ℕ),
    ∀ n ∈ flatten (buildStats p d), ∃ q dep, q ∈ p.allNodes ∧ n.data = builtData q dep := by
  intro p
  induction p using model.planNodeInd with
  | _ nd cs ih =>
    intro d n hn
    have hb : buildStats (.mk nd cs) d =
        NodeStats.mk (builtData (.mk nd cs) d) (buildStatsList cs (d + 1)) := by
      have h1 := buildStats_data (.mk nd cs) d
      have h2 := buildStats_children nd cs d
      cases hbs : buildStats (.mk nd cs) d with
      | mk dd cc =>
        rw [hbs] at h1 h2
        simp only [data_mk, children_mk] at h1 h2
        rw [h1, h2]
    rw [hb, flatten_mk] at hn
    rcases List.mem_cons.mp hn with hroot | hsub
    · exact ⟨.mk nd cs, d, self_mem_allNodes _, by rw [hroot, data_mk]⟩
    · rcases (mem_flattenList n _).mp hsub with ⟨t, ht, hnt⟩
      rw [buildStatsList_eq_map] at ht
      rcases List.mem_map.mp ht with ⟨c, hc, hct⟩
      rcases ih c hc (d + 1) n (hct ▸ hnt) with ⟨q, dep, hq, hdata⟩
      refine ⟨q, dep, ?_, hdata⟩
      show q ∈ model.PlanNode.allNodes (.mk nd cs)
      simp only [model.PlanNode.allNodes, List.mem_cons]
      exact Or.inr ((mem_allNodesList q cs).mpr ⟨c, hc, hq⟩)

end analyzer

namespace analyzer

theorem annotatePercents_mk (total : ℚ) (d : NodeStatsData) (cs : List NodeStats) :
    annotatePercents total (.mk d cs) =
      NodeStats.mk (annD total d) (annotatePercentsList total cs) := by
  simp [annotatePercents, annD]

theorem annD_fields (total : ℚ) (d : NodeStatsData) :
    (annD total d).exclusiveTimeMs = d.exclusiveTimeMs ∧
    (annD total d).inclusiveTimeMs = d.inclusiveTimeMs ∧
    (annD total d).warnings = d.warnings ∧
    (annD total d).rowEstimateFactor = d.rowEstimateFactor ∧
    (annD total d).node = d.node ∧
    (annD total d).buffers = d.buffers ∧
    (annD total d).actualTotalRows = d.actualTotalRows ∧
    (annD total d).estimatedRows = d.estimatedRows := by
  unfold annD
  split <;> simp

theorem annD_pctExclusive (total : ℚ) (d : NodeStatsData) :
    (annD total d).percentExclusive =
      (if 0 < total then d.exclusiveTimeMs / total else d.percentExclusive) := by
  unfold annD
  split <;> simp

theorem flatten_annotate_data : ∀ (t : NodeStats) (total : ℚ),
    (flatten (annotatePercents total t)).map NodeStats.data =
      ((flatten t).map NodeStats.data).map (annD total) := by
  intro t
  induction t using analyzer.nodeStatsInd with
  | _ d cs ih =>
    intro total
    rw [annotatePercents_mk, flatten_mk, flatten_mk]
    simp only [List.map_cons, data_mk, annotatePercentsList_eq_map]
    congr 1
    induction cs with
    | nil => simp [flattenList]
    | cons c cs ihl =>
      simp only [List.map_cons, flattenList_cons, List.map_append]
      rw [ih c (List.mem_cons_self c cs) total,
        ihl (fun x hx => ih x (List.mem_cons_of_mem c hx))]

theorem mem_flatten_annotate (t : NodeStats) (total : ℚ) (n : NodeStats)
    (hn : n ∈ flatten (annotatePercents total t)) :
    ∃ m ∈ flatten t, n.data = annD total m.data := by
  have hd : n.data ∈ (flatten (annotatePercents total t)).map NodeStats.data :=
    List.mem_map_of_mem _ hn
  rw [flatten_annotate_data] at hd
  rcases List.mem_map.mp hd with ⟨d0, hd0, hda⟩
  rcases List.mem_map.mp hd0 with ⟨m, hm, hmd⟩
  exact ⟨m, hm, by rw [← hda, hmd]⟩

theorem analyzePlan_fields (e : model.Explain) (p : model.PlanNode) :
    (analyzePlan e p).root =
      annotatePercents (buildStats p 0).inclusiveTimeMs (buildStats p 0) ∧
    (analyzePlan e p).totalTimeMs = (buildStats p 0).inclusiveTimeMs ∧
    (analyzePlan e p).planningTimeMs = e.planningTime ∧
    (analyzePlan e p).executionTimeMs = e.executionTime ∧
    (analyzePlan e p).hotNodes = selectHotNodes (flatten (analyzePlan e p).root) ∧
    (analyzePlan e p).divergentNodes = selectDivergentNodes (flatten (analyzePlan e p).root) ∧
    (analyzePlan e p).nodeCount = (flatten (analyzePlan e p).root).length := by
  refine ⟨rfl, rfl, rfl, rfl, rfl, rfl, rfl⟩

theorem analyze_ok_iff (inp : Option model.Explain) (a : PlanAnalysis)
    (h : Analyze inp = .ok a) :
    ∃ e p, inp = some e ∧ e.plan = some p ∧ a = analyzePlan e p := by
  cases inp with
  | none => simp [Analyze] at h
  | some e =>
    cases hp : e.plan with
    | none => simp [Analyze, hp] at h
    | some p =>
      refine ⟨e, p, rfl, hp, ?_⟩
      simp [Analyze, hp] at h
      exact h.symm

end analyzer

/-! ## C1: per-node warnings -/

namespace analyzer

theorem rowWarnings_cases (f : FloatVal) :
    (∀ q, Warning.selfTime q ∉ rowWarnings f) ∧
    Warning.heavyBuffers ∉ rowWarnings f ∧
    (((∃ g, Warning.rowsHigher g ∈ rowWarnings f) ∨
        (∃ g, Warning.rowsLower g ∈ rowWarnings f)) ↔
      (f.geb 2 = true ∨ f.leb (1/2) = true)) := by
  unfold rowWarnings
  split_ifs with h1 h2 <;> simp_all

theorem analyzed_node_data (inp : Option model.Explain) (a : PlanAnalysis)
    (h : Analyze inp = .ok a) (n : NodeStats) (hn : n ∈ flatten a.root) :
    ∃ e p q dep, inp = some e ∧ e.plan = some p ∧ a = analyzePlan e p ∧
      q ∈ p.allNodes ∧
      n.data = annD (buildStats p 0).inclusiveTimeMs (builtData q dep) := by
  rcases analyze_ok_iff inp a h with ⟨e, p, hinp, hplan, ha⟩
  have hroot : a.root = annotatePercents (buildStats p 0).inclusiveTimeMs (buildStats p 0) := by
    rw [ha]; rfl
  rw [hroot] at hn
  rcases mem_flatten_annotate _ _ _ hn with ⟨m, hm, hdm⟩
  rcases mem_flatten_build p 0 m hm with ⟨q, dep, hq, hmd⟩
  exact ⟨e, p, q, dep, hinp, hplan, ha, hq, by rw [hdm, hmd]⟩

end analyzer

/-- C1 (amended): for every plan accepted by `Analyze`, each node's
warning list is derived from the stats record as it stands during the
bottom-up pass, before percent-of-total annotation: the self-time and
heavy-buffer warnings, whose conditions compare the percent-exclusive
field while it still holds its zero initial value, are never present; the
row-factor warning is present exactly when the node's row-estimate factor
is ≥ 2.0 or ≤ 0.5. -/
theorem analyze_warnings_row_factor_only (inp : Option model.Explain)
    (a : analyzer.PlanAnalysis) (h : analyzer.Analyze inp = .ok a)
    (n : analyzer.NodeStats) (hn : n ∈ analyzer.flatten a.root) :
    ¬ analyzer.hasSelfTimeWarning n ∧
    ¬ analyzer.hasBufferWarning n ∧
    (analyzer.hasRowsWarning n ↔
      (n.data.rowEstimateFactor.geb 2 = true ∨
        n.data.rowEstimateFactor.leb (1/2) = true)) := by
  rcases analyzer.analyzed_node_data inp a h n hn with ⟨e, p, q, dep, -, -, -, -, hdata⟩
  have hw : n.data.warnings = analyzer.rowWarnings n.data.rowEstimateFactor := by
    rw [hdata]
    rw [(analyzer.annD_fields _ _).2.2.1, (analyzer.annD_fields _ _).2.2.2.1]
    exact analyzer.builtData_warnings q dep
  rcases analyzer.rowWarnings_cases n.data.rowEstimateFactor with ⟨hs, hb, hr⟩
  refine ⟨?_, ?_, ?_⟩
  · rintro ⟨q0, hq0⟩
    rw [hw] at hq0
    exact hs q0 hq0
  · intro hq0
    rw [analyzer.hasBufferWarning, hw] at hq0
    exact hb hq0
  · rw [analyzer.hasRowsWarning, hw]
    exact hr

/-- Counterexample for C1 as stated: the single-scan plan (5 ms, 100
estimated and actual rows) yields a node whose exclusive-time share is 1
(≥ 20%), yet its warning list is empty — no self-time warning is derived. -/
theorem analyze_warnings_counterexample :
    (analyzer.Analyze (some examples.scanExplain)).map
      (fun a => (analyzer.flatten a.root).map
        (fun n => (n.percentExclusive, n.data.warnings))) =
      .ok [(1, [])] ∧ (1/5 : ℚ) ≤ 1 := by
  constructor
  · norm_num [analyzer.Analyze, examples.scanExplain, examples.scanNode,
      analyzer.analyzePlan, analyzer.buildStats, analyzer.buildStatsList,
      analyzer.deriveWarnings, analyzer.computeEstimateFactor, analyzer.epsilon,
      analyzer.effLoops, analyzer.copyBuffers, analyzer.annotatePercents,
      analyzer.annotatePercentsList, analyzer.flatten, analyzer.flattenList,
      analyzer.NodeStats.inclusiveTimeMs, analyzer.NodeStats.percentExclusive,
      analyzer.NodeStats.data, analyzer.BufferTotals.Total, FloatVal.geb, FloatVal.leb,
      Except.map]
  · norm_num

/-- Witness for the amended C1, at the single-scan plan: its root node
carries no self-time warning, no buffer warning, and no row-factor warning
(its factor is exactly 1). -/
theorem analyze_warnings_row_factor_only_witness :
    ¬ analyzer.hasSelfTimeWarning ((analyzer.analyzePlan examples.scanExplain examples.scanNode).root) ∧
    ¬ analyzer.hasBufferWarning ((analyzer.analyzePlan examples.scanExplain examples.scanNode).root) ∧
    (analyzer.hasRowsWarning ((analyzer.analyzePlan examples.scanExplain examples.scanNode).root) ↔
      (((analyzer.analyzePlan examples.scanExplain examples.scanNode).root.data.rowEstimateFactor.geb 2 = true) ∨
        ((analyzer.analyzePlan examples.scanExplain examples.scanNode).root.data.rowEstimateFactor.leb (1/2) = true))) := by
  refine analyze_warnings_row_factor_only (some examples.scanExplain)
    (analyzer.analyzePlan examples.scanExplain examples.scanNode) rfl _ ?_
  have : analyzer.flatten (analyzer.analyzePlan examples.scanExplain examples.scanNode).root =
      (analyzer.analyzePlan examples.scanExplain examples.scanNode).root ::
        analyzer.flattenList (analyzer.analyzePlan examples.scanExplain examples.scanNode).root.children := by
    cases hr : (analyzer.analyzePlan examples.scanExplain examples.scanNode).root with
    | mk d cs => rw [analyzer.flatten_mk, analyzer.children_mk]
  rw [this]
  exact List.mem_cons_self _ _

/-! ## C10: the input plan is untouched -/

namespace analyzer

theorem stripStatsList_cons (t : NodeStats) (ts : List NodeStats) :
    stripStatsList (t :: ts) = stripStats t :: stripStatsList ts := by
  simp [stripStatsList]

theorem stripStats_mk (d : NodeStatsData) (cs : List NodeStats) :
    stripStats (.mk d cs) = .mk d.node.data (stripStatsList cs) := by
  simp [stripStats]

theorem stripStats_annotate : ∀ (t : NodeStats) (total : ℚ),
    stripStats (annotatePercents total t) = stripStats t := by
  intro t
  induction t using analyzer.nodeStatsInd with
  | _ d cs ih =>
    intro total
    rw [annotatePercents_mk, stripStats_mk, stripStats_mk,
      (annD_fields total d).2.2.2.2.1, annotatePercentsList_eq_map]
    congr 1
    induction cs with
    | nil => simp [stripStatsList]
    | cons c cs ihl =>
      rw [List.map_cons, stripStatsList_cons, stripStatsList_cons,
        ih c (List.mem_cons_self c cs) total,
        ihl (fun x hx => ih x (List.mem_cons_of_mem c hx))]

theorem stripStats_build : ∀ (p : model.PlanNode) (d : ℕ),
    stripStats (buildStats p d) = p := by
  intro p
  induction p using model.planNodeInd with
  | _ nd cs ih =>
    intro d
    have hb : buildStats (.mk nd cs) d =
        NodeStats.mk (builtData (.mk nd cs) d) (buildStatsList cs (d + 1)) := by
      have h1 := buildStats_data (.mk nd cs) d
      have h2 := buildStats_children nd cs d
      cases hbs : buildStats (.mk nd cs) d with
      | mk dd cc =>
        rw [hbs] at h1 h2
        simp only [data_mk, children_mk] at h1 h2
        rw [h1, h2]
    rw [hb, stripStats_mk, builtData_node]
    show model.PlanNode.mk (model.PlanNode.data (.mk nd cs)) _ = _
    rw [model.PlanNode.data]
    congr 1
    rw [buildStatsList_eq_map]
    clear hb
    induction cs with
    | nil => simp [stripStatsList]
    | cons c cs ihl =>
      rw [List.map_cons, stripStatsList_cons, ih c (List.mem_cons_self c cs) (d + 1),
        ihl (fun x hx => ih x (List.mem_cons_of_mem c hx))]

theorem annotate_data (t : NodeStats) (total : ℚ) :
    (annotatePercents total t).data = annD total t.data := by
  cases t with
  | mk d cs => rw [annotatePercents_mk, data_mk, data_mk]

end analyzer

/-- C10: `Analyze` never mutates its input.  In this pure embedding the Go
code's freedom from writes through the input pointers is rendered as a
round trip: the analysis stores the input nodes verbatim (the root stats
node's `Node` field is the untouched input plan), the entire input plan is
reconstructed unchanged from the freshly built stats tree alone, and the
explain document's own fields are only copied out. -/
theorem analyze_preserves_input (e : model.Explain) (p : model.PlanNode)
    (h : e.plan = some p) :
    analyzer.stripStats (analyzer.analyzePlan e p).root = p ∧
    (analyzer.analyzePlan e p).root.data.node = p ∧
    (analyzer.analyzePlan e p).planningTimeMs = e.planningTime ∧
    (analyzer.analyzePlan e p).executionTimeMs = e.executionTime := by
  refine ⟨?_, ?_, rfl, rfl⟩
  · show analyzer.stripStats
      (analyzer.annotatePercents (analyzer.buildStats p 0).inclusiveTimeMs
        (analyzer.buildStats p 0)) = p
    rw [analyzer.stripStats_annotate, analyzer.stripStats_build]
  · show (analyzer.annotatePercents (analyzer.buildStats p 0).inclusiveTimeMs
      (analyzer.buildStats p 0)).data.node = p
    rw [analyzer.annotate_data, (analyzer.annD_fields _ _).2.2.2.2.1,
      analyzer.buildStats_data, analyzer.builtData_node]

/-- Witness for C10 at the single-scan plan. -/
theorem analyze_preserves_input_witness :
    analyzer.stripStats (analyzer.analyzePlan examples.scanExplain examples.scanNode).root =
      examples.scanNode ∧
    (analyzer.analyzePlan examples.scanExplain examples.scanNode).root.data.node =
      examples.scanNode := by
  have h := analyze_preserves_input examples.scanExplain examples.scanNode rfl
  exact ⟨h.1, h.2.1⟩

/-! ## C7: failure semantics and missing-statistics degradation -/

namespace analyzer

theorem builtData_rows (q : model.PlanNode) (dep : ℕ) :
    (builtData q dep).actualTotalRows = q.data.actualRows * effLoops q.data.actualLoops := by
  simp [builtData]

theorem builtData_buffers (q : model.PlanNode) (dep : ℕ) :
    (builtData q dep).buffers = copyBuffers q.data.buffers := by
  simp [builtData]

theorem annD_nonpos (total : ℚ) (d : NodeStatsData) (h : ¬ 0 < total) :
    annD total d = d := by
  unfold annD
  rw [if_neg h]

theorem mem_allNodes_children : ∀ (p : model.PlanNode), ∀ q ∈ p.allNodes,
    ∀ c ∈ q.children, c ∈ p.allNodes := by
  intro p
  induction p using model.planNodeInd with
  | _ nd cs ih =>
    intro q hq c hc
    show c ∈ model.PlanNode.allNodes (.mk nd cs)
    simp only [model.PlanNode.allNodes, List.mem_cons] at hq ⊢
    rcases hq with hself | hsub
    · subst hself
      simp only [model.PlanNode.children] at hc
      exact Or.inr ((mem_allNodesList c cs).mpr ⟨c, hc, self_mem_allNodes c⟩)
    · rcases (mem_allNodesList q cs).mp hsub with ⟨t, ht, hqt⟩
      exact Or.inr ((mem_allNodesList c cs).mpr ⟨t, ht, ih t ht q hqt c hc⟩)

theorem buildStats_inclusive (p : model.PlanNode) (d : ℕ) :
    (buildStats p d).inclusiveTimeMs = inclTime p := by
  rw [NodeStats.inclusiveTimeMs, buildStats_data, builtData_inclusive]

end analyzer

/-- C7: `Analyze` returns an error exactly when the explain document or
its root plan node is absent; every structurally present plan is analyzed
successfully, a non-positive loop count is normalized to 1, and a plan
with no runtime statistics at all degrades to zero/neutral derived values
(zero inclusive, exclusive, row and buffer totals and zero percent shares)
rather than failing. -/
theorem analyze_error_semantics :
    (analyzer.Analyze none = .error "analyze: missing plan") ∧
    (∀ e : model.Explain, e.plan = none →
      analyzer.Analyze (some e) = .error "analyze: missing plan") ∧
    (∀ (e : model.Explain) (p : model.PlanNode), e.plan = some p →
      analyzer.Analyze (some e) = .ok (analyzer.analyzePlan e p)) ∧
    (∀ q : ℚ, q ≤ 0 → analyzer.effLoops q = 1) ∧
    (∀ (e : model.Explain) (p : model.PlanNode), e.plan = some p →
      analyzer.NoRuntimeStats p →
      (analyzer.analyzePlan e p).totalTimeMs = 0 ∧
      ∀ n ∈ analyzer.flatten (analyzer.analyzePlan e p).root,
        n.data.inclusiveTimeMs = 0 ∧ n.data.exclusiveTimeMs = 0 ∧
        n.data.actualTotalRows = 0 ∧ n.data.percentExclusive = 0 ∧
        n.data.percentInclusive = 0 ∧ n.data.buffers.Total = 0) := by
  refine ⟨rfl, ?_, ?_, ?_, ?_⟩
  · intro e h
    simp [analyzer.Analyze, h]
  · intro e p h
    simp [analyzer.Analyze, h]
  · intro q h
    simp [analyzer.effLoops, h]
  · intro e p h hz
    have hzero : ∀ q ∈ p.allNodes, analyzer.inclTime q = 0 := by
      intro q hq
      rcases hz q hq with ⟨ht, -, -, -⟩
      rw [analyzer.inclTime, ht, zero_mul]
    have htot : (analyzer.buildStats p 0).inclusiveTimeMs = 0 := by
      rw [analyzer.buildStats_inclusive]
      exact hzero p (analyzer.self_mem_allNodes p)
    constructor
    · show (analyzer.buildStats p 0).inclusiveTimeMs = 0
      exact htot
    · intro n hn
      have hroot : (analyzer.analyzePlan e p).root =
          analyzer.annotatePercents (analyzer.buildStats p 0).inclusiveTimeMs
            (analyzer.buildStats p 0) := rfl
      rw [hroot] at hn
      rcases analyzer.mem_flatten_annotate _ _ _ hn with ⟨m, hm, hdm⟩
      rcases analyzer.mem_flatten_build p 0 m hm with ⟨q, dep, hq, hmd⟩
      have hnd : n.data = analyzer.builtData q dep := by
        rw [hdm, htot, analyzer.annD_nonpos 0 _ (by norm_num), hmd]
      have hsum : (q.children.map analyzer.inclTime).sum = 0 := by
        refine List.sum_eq_zero ?_
        intro x hx
        rcases List.mem_map.mp hx with ⟨c, hc, hcx⟩
        rw [← hcx]
        exact hzero c (analyzer.mem_allNodes_children p q hq c hc)
      rcases hz q hq with ⟨-, hrows, -, hbuf⟩
      refine ⟨?_, ?_, ?_, ?_, ?_, ?_⟩
      · rw [hnd, analyzer.builtData_inclusive]
        exact hzero q hq
      · rw [hnd, analyzer.builtData_exclusive, hsum, hzero q hq]
        norm_num
      · rw [hnd, analyzer.builtData_rows, hrows, zero_mul]
      · rw [hnd]
        exact (analyzer.builtData_pct q dep).1
      · rw [hnd]
        exact (analyzer.builtData_pct q dep).2
      · rw [hnd, analyzer.builtData_buffers, hbuf]
        decide

/-- Witness for C7: the all-zero two-node plan is accepted, its total time
is zero, and a zero loop count is normalized to 1. -/
theorem analyze_error_semantics_witness :
    analyzer.Analyze none = .error "analyze: missing plan" ∧
    analyzer.Analyze (some examples.noStatsExplain) =
      .ok (analyzer.analyzePlan examples.noStatsExplain examples.noStatsPlan) ∧
    analyzer.effLoops 0 = 1 ∧
    (analyzer.analyzePlan examples.noStatsExplain examples.noStatsPlan).totalTimeMs = 0 := by
  have h := analyze_error_semantics
  have hz : analyzer.NoRuntimeStats examples.noStatsPlan := by
    intro q hq
    simp only [examples.noStatsPlan, model.PlanNode.allNodes,
      model.PlanNode.allNodesList, List.mem_cons, List.append_nil,
      List.not_mem_nil, or_false] at hq
    rcases hq with h1 | h1 <;> subst h1 <;> exact ⟨rfl, rfl, rfl, rfl⟩
  exact ⟨h.1, h.2.2.1 examples.noStatsExplain examples.noStatsPlan rfl,
    h.2.2.2.1 0 le_rfl,
    (h.2.2.2.2 examples.noStatsExplain examples.noStatsPlan rfl hz).1⟩

/-! ## C5: sum of exclusive times vs root inclusive time -/

namespace analyzer

theorem buildStats_eq_mk (nd : model.PlanNodeData) (cs : List model.PlanNode) (d : ℕ) :
    buildStats (.mk nd cs) d =
      NodeStats.mk (builtData (.mk nd cs) d) (buildStatsList cs (d + 1)) := by
  have h1 := buildStats_data (.mk nd cs) d
  have h2 := buildStats_children nd cs d
  cases hbs : buildStats (.mk nd cs) d with
  | mk dd cc =>
    rw [hbs] at h1 h2
    simp only [data_mk, children_mk] at h1 h2
    rw [h1, h2]

theorem sumExclusive_flattenList (cs : List NodeStats) :
    ((flattenList cs).map NodeStats.exclusiveTimeMs).sum = (cs.map sumExclusive).sum := by
  induction cs with
  | nil => simp [flattenList]
  | cons c cs ih =>
    rw [flattenList_cons, List.map_append, List.sum_append, ih, List.map_cons,
      List.sum_cons]
    rfl

theorem sumExclusive_mk (d : NodeStatsData) (cs : List NodeStats) :
    sumExclusive (.mk d cs) = d.exclusiveTimeMs + (cs.map sumExclusive).sum := by
  rw [sumExclusive, flatten_mk, List.map_cons, List.sum_cons, sumExclusive_flattenList]
  rfl

theorem sumExclusive_annotate (t : NodeStats) (total : ℚ) :
    sumExclusive (annotatePercents total t) = sumExclusive t := by
  have hmap : ∀ s : NodeStats,
      (flatten s).map NodeStats.exclusiveTimeMs =
        ((flatten s).map NodeStats.data).map (fun d => d.exclusiveTimeMs) := by
    intro s
    rw [List.map_map]
    rfl
  rw [sumExclusive, sumExclusive, hmap, hmap, flatten_annotate_data, List.map_map]
  congr 1
  refine List.map_congr_left ?_
  intro d hd
  exact (annD_fields total d).1

theorem subtree_childrenWithinParent (nd : model.PlanNodeData)
    (cs : List model.PlanNode) (h : childrenWithinParent (.mk nd cs))
    (c : model.PlanNode) (hc : c ∈ cs) : childrenWithinParent c := by
  intro q hq
  refine h q ?_
  show q ∈ model.PlanNode.allNodes (.mk nd cs)
  simp only [model.PlanNode.allNodes, List.mem_cons]
  exact Or.inr ((mem_allNodesList q cs).mpr ⟨c, hc, hq⟩)

theorem build_sumExclusive : ∀ (p : model.PlanNode), childrenWithinParent p →
    ∀ d : ℕ, sumExclusive (buildStats p d) = inclTime p := by
  intro p
  induction p using model.planNodeInd with
  | _ nd cs ih =>
    intro h d
    rw [buildStats_eq_mk, sumExclusive_mk]
    have hchild : ((buildStatsList cs (d + 1)).map sumExclusive).sum =
        (cs.map inclTime).sum := by
      rw [buildStatsList_eq_map, List.map_map]
      congr 1
      refine List.map_congr_left ?_
      intro c hc
      exact ih c hc (subtree_childrenWithinParent nd cs h c hc) (d + 1)
    have hself := h (.mk nd cs) (self_mem_allNodes _)
    have hraw : ¬ (inclTime (.mk nd cs) -
        ((model.PlanNode.mk nd cs).children.map inclTime).sum < 0) := by
      simp only [not_lt, sub_nonneg]
      exact hself
    rw [hchild, builtData_exclusive, if_neg hraw]
    show inclTime (.mk nd cs) -
        ((model.PlanNode.mk nd cs).children.map inclTime).sum +
        (cs.map inclTime).sum = inclTime (.mk nd cs)
    simp only [model.PlanNode.children]
    ring

end analyzer

/-- C5 (amended): for every plan accepted by `Analyze` in which no node's
children report more inclusive time than the node itself, the sum of all
nodes' exclusive times equals the root's inclusive time exactly.  (When
some node's children do exceed it, the clamp to zero makes the sum
strictly larger than the root's inclusive time, as the counterexample
shows — the equality does not survive clamping.) -/
theorem analyze_sum_exclusive (e : model.Explain) (p : model.PlanNode)
    (a : analyzer.PlanAnalysis) (hp : e.plan = some p)
    (h : analyzer.Analyze (some e) = .ok a)
    (hnc : analyzer.childrenWithinParent p) :
    analyzer.sumExclusive a.root = a.totalTimeMs := by
  have ha : a = analyzer.analyzePlan e p := by
    simp [analyzer.Analyze, hp] at h
    exact h.symm
  subst ha
  show analyzer.sumExclusive
      (analyzer.annotatePercents (analyzer.buildStats p 0).inclusiveTimeMs
        (analyzer.buildStats p 0)) = (analyzer.buildStats p 0).inclusiveTimeMs
  rw [analyzer.sumExclusive_annotate, analyzer.build_sumExclusive p hnc 0,
    analyzer.buildStats_inclusive]

/-- Counterexample for C5 as stated: in the clamp plan (parent 1 ms, child
5 ms) the parent's exclusive time is clamped to zero, so the exclusive
times sum to 5 while the root's inclusive time is 1 — not equal within any
tolerance. -/
theorem analyze_sum_exclusive_counterexample :
    (analyzer.Analyze (some examples.clampExplain)).map
      (fun a => (analyzer.sumExclusive a.root, a.totalTimeMs)) = .ok (5, 1) ∧
    (5 : ℚ) ≠ 1 := by
  constructor
  · norm_num [analyzer.Analyze, examples.clampExplain, examples.clampPlan,
      analyzer.analyzePlan, analyzer.buildStats, analyzer.buildStatsList,
      analyzer.deriveWarnings, analyzer.computeEstimateFactor, analyzer.epsilon,
      analyzer.effLoops, analyzer.copyBuffers, analyzer.annotatePercents,
      analyzer.annotatePercentsList, analyzer.flatten, analyzer.flattenList,
      analyzer.NodeStats.inclusiveTimeMs, analyzer.NodeStats.exclusiveTimeMs,
      analyzer.NodeStats.data, analyzer.BufferTotals.Total, FloatVal.geb, FloatVal.leb,
      Except.map, analyzer.sumExclusive]
  · norm_num

/-- Witness for the amended C5 at the single-scan plan (no clamping). -/
theorem analyze_sum_exclusive_witness :
    analyzer.sumExclusive (analyzer.analyzePlan examples.scanExplain examples.scanNode).root =
      (analyzer.analyzePlan examples.scanExplain examples.scanNode).totalTimeMs := by
  refine analyze_sum_exclusive examples.scanExplain examples.scanNode _ rfl rfl ?_
  intro q hq
  simp only [examples.scanNode, model.PlanNode.allNodes, model.PlanNode.allNodesList,
    List.mem_cons, List.not_mem_nil, or_false] at hq
  subst hq
  norm_num [model.PlanNode.children, analyzer.inclTime, analyzer.effLoops,
    model.PlanNode.data]

/-! ## C6: hotspot selection -/

namespace analyzer

theorem mem_takeWhile_pct (l : List NodeStats) (m : NodeStats)
    (hm : m ∈ l.takeWhile (fun n => decide ((1/10 : ℚ) ≤ n.percentExclusive))) :
    (1/10 : ℚ) ≤ m.percentExclusive := by
  have h2 := List.mem_takeWhile_imp hm
  exact of_decide_eq_true h2

theorem takeWhile_pct_cons (h0 : NodeStats) (t : List NodeStats)
    (hh0 : (1/10 : ℚ) ≤ h0.percentExclusive) :
    (h0 :: t).takeWhile (fun n => decide ((1/10 : ℚ) ≤ n.percentExclusive)) =
      h0 :: t.takeWhile (fun n => decide ((1/10 : ℚ) ≤ n.percentExclusive)) := by
  simp only [List.takeWhile_cons, decide_eq_true hh0]
  simp

theorem selectHotNodes_spec (nodes : List NodeStats) :
    (selectHotNodes nodes).length ≤ 5 ∧
    List.Sorted (fun v w : NodeStats => w.percentExclusive ≤ v.percentExclusive)
      (selectHotNodes nodes) ∧
    ((∃ n ∈ nodes, (1/10 : ℚ) ≤ n.percentExclusive) →
      ∀ m ∈ selectHotNodes nodes, (1/10 : ℚ) ≤ m.percentExclusive) ∧
    ((∀ n ∈ nodes, n.percentExclusive < 1/10) →
      (∃ n ∈ nodes, 0 < n.percentExclusive) →
      selectHotNodes nodes =
        (List.insertionSort (fun v w : NodeStats => w.percentExclusive ≤ v.percentExclusive)
          (nodes.filter (fun n => decide (0 < n.percentExclusive)))).take
          (min 5 (List.insertionSort (fun v w : NodeStats => w.percentExclusive ≤ v.percentExclusive)
            (nodes.filter (fun n => decide (0 < n.percentExclusive)))).length)) ∧
    ((∃ n ∈ nodes, 0 < n.percentExclusive) → selectHotNodes nodes ≠ []) := by
  classical
  by_cases hne : nodes.isEmpty = true
  · have hnil : nodes = [] := by simpa [List.isEmpty_iff] using hne
    subst hnil
    refine ⟨?_, ?_, ?_, ?_, ?_⟩ <;>
      simp [selectHotNodes]
  · haveI instTot : IsTotal NodeStats
        (fun v w : NodeStats => w.percentExclusive ≤ v.percentExclusive) :=
      ⟨fun a b => le_total _ _⟩
    haveI instTrans : IsTrans NodeStats
        (fun v w : NodeStats => w.percentExclusive ≤ v.percentExclusive) :=
      ⟨fun _ _ _ h1 h2 => le_trans h2 h1⟩
    set cands := nodes.filter (fun n => decide (0 < n.percentExclusive)) with hcands_def
    set sorted := List.insertionSort
      (fun v w : NodeStats => w.percentExclusive ≤ v.percentExclusive) cands with hsorted_def
    set limit := min 5 sorted.length with hlimit_def
    set out := (sorted.take limit).takeWhile
      (fun n => decide ((1/10 : ℚ) ≤ n.percentExclusive)) with hout_def
    have hsel : selectHotNodes nodes =
        if out.isEmpty ∧ ¬cands.isEmpty then sorted.take limit else out := by
      unfold selectHotNodes
      rw [if_neg hne]
    have hsorted : List.Sorted
        (fun v w : NodeStats => w.percentExclusive ≤ v.percentExclusive) sorted :=
      List.sorted_insertionSort _ cands
    have hmem_sorted : ∀ x, x ∈ sorted ↔ x ∈ cands := fun x => List.mem_insertionSort _
    have hsub_out_take : List.Sublist out (sorted.take limit) := List.takeWhile_sublist _
    have hsub_take : List.Sublist (sorted.take limit) sorted := List.take_sublist limit sorted
    have hlen_take : (sorted.take limit).length ≤ 5 := by
      rw [List.length_take]
      exact le_trans (min_le_left _ _) (min_le_left _ _)
    have hlen : (selectHotNodes nodes).length ≤ 5 := by
      rw [hsel]
      split
      · exact hlen_take
      · exact le_trans hsub_out_take.length_le hlen_take
    have hsorted_sel : List.Sorted
        (fun v w : NodeStats => w.percentExclusive ≤ v.percentExclusive)
        (selectHotNodes nodes) := by
      rw [hsel]
      split
      · exact List.Pairwise.sublist hsub_take hsorted
      · exact List.Pairwise.sublist (hsub_out_take.trans hsub_take) hsorted
    refine ⟨hlen, hsorted_sel, ?_, ?_, ?_⟩
    · -- some node reaches the 10% cutoff: no fallback, all selected are ≥ 10%
      rintro ⟨n, hn, hn10⟩
      have hn_cands : n ∈ cands :=
        List.mem_filter.mpr ⟨hn, decide_eq_true (lt_of_lt_of_le (by norm_num) hn10)⟩
      have hn_sorted : n ∈ sorted := (hmem_sorted n).mpr hn_cands
      obtain ⟨h0, t, hs⟩ : ∃ h0 t, sorted = h0 :: t := by
        cases hseq : sorted with
        | nil => rw [hseq] at hn_sorted; cases hn_sorted
        | cons a b => exact ⟨a, b, rfl⟩
      have hh0 : (1/10 : ℚ) ≤ h0.percentExclusive := by
        rw [hs] at hn_sorted hsorted
        rcases List.mem_cons.mp hn_sorted with he | ht
        · exact he ▸ hn10
        · exact le_trans hn10 (List.rel_of_sorted_cons hsorted n ht)
      obtain ⟨k, hk⟩ : ∃ k, limit = k + 1 := by
        have hpos : 0 < limit := by
          rw [hlimit_def, hs]
          exact lt_min (by norm_num) (Nat.succ_pos _)
        exact ⟨limit - 1, (Nat.succ_pred_eq_of_pos hpos).symm⟩
      have htake : sorted.take limit = h0 :: t.take k := by
        rw [hs, hk, List.take_succ_cons]
      have hout_cons : out = h0 :: (t.take k).takeWhile
          (fun n => decide ((1/10 : ℚ) ≤ n.percentExclusive)) := by
        rw [hout_def, htake, takeWhile_pct_cons h0 (t.take k) hh0]
      have hout_ne : ¬ (out.isEmpty = true) := by
        rw [hout_cons]
        simp
      have hhot : selectHotNodes nodes = out := by
        rw [hsel, if_neg]
        rintro ⟨h1, -⟩
        exact hout_ne h1
      rw [hhot]
      intro m hm
      rw [hout_def] at hm
      exact mem_takeWhile_pct _ m hm
    · -- fallback: nothing reaches the cutoff but candidates exist
      intro hall hex
      rcases hex with ⟨n, hn, hnpos⟩
      have hn_cands : n ∈ cands := List.mem_filter.mpr ⟨hn, decide_eq_true hnpos⟩
      have hcands_ne : ¬ (cands.isEmpty = true) := by
        cases hceq : cands with
        | nil => rw [hceq] at hn_cands; cases hn_cands
        | cons a b => simp
      have hout_nil : out = [] := by
        by_contra hne2
        obtain ⟨m, hm⟩ := List.exists_mem_of_ne_nil out hne2
        have hm10 : (1/10 : ℚ) ≤ m.percentExclusive := by
          rw [hout_def] at hm
          exact mem_takeWhile_pct _ m hm
        have hm_nodes : m ∈ nodes := by
          have h1 : m ∈ sorted.take limit := hsub_out_take.mem hm
          have h2 : m ∈ sorted := hsub_take.mem h1
          exact List.mem_of_mem_filter ((hmem_sorted m).mp h2)
        exact absurd hm10 (not_le.mpr (hall m hm_nodes))
      rw [hsel, if_pos ⟨by rw [hout_nil]; rfl, hcands_ne⟩]
    · -- non-empty whenever some node has a positive share
      rintro ⟨n, hn, hnpos⟩
      have hn_cands : n ∈ cands := List.mem_filter.mpr ⟨hn, decide_eq_true hnpos⟩
      have hn_sorted : n ∈ sorted := (hmem_sorted n).mpr hn_cands
      obtain ⟨h0, t, hs⟩ : ∃ h0 t, sorted = h0 :: t := by
        cases hseq : sorted with
        | nil => rw [hseq] at hn_sorted; cases hn_sorted
        | cons a b => exact ⟨a, b, rfl⟩
      obtain ⟨k, hk⟩ : ∃ k, limit = k + 1 := by
        have hpos : 0 < limit := by
          rw [hlimit_def, hs]
          exact lt_min (by norm_num) (Nat.succ_pos _)
        exact ⟨limit - 1, (Nat.succ_pred_eq_of_pos hpos).symm⟩
      have htake_ne : sorted.take limit ≠ [] := by
        rw [hs, hk, List.take_succ_cons]
        exact List.cons_ne_nil _ _
      have hcands_ne : ¬ (cands.isEmpty = true) := by
        cases hceq : cands with
        | nil => rw [hceq] at hn_cands; cases hn_cands
        | cons a b => simp
      rw [hsel]
      split
      · exact htake_ne
      · rename_i hcond
        intro hout_nil
        exact hcond ⟨by rw [hout_nil]; rfl, hcands_ne⟩

end analyzer

/-- C6 (amended): for every plan accepted by `Analyze`, the hotspot list
has at most 5 nodes and is sorted descending by exclusive-time share; if
some node's share reaches 10% every selected node's share is at least 10%;
if no node reaches 10% but some node has a positive share, the list falls
back to the top `min 5 (number of candidates)` nodes by share; and the
list is non-empty whenever some node has a *positive share* — which, when
the root's inclusive time is zero, can fail even though a node has nonzero
self time, since percent fields are then never assigned (see the
counterexample). -/
theorem analyze_hotspots (inp : Option model.Explain) (a : analyzer.PlanAnalysis)
    (h : analyzer.Analyze inp = .ok a) :
    a.hotNodes.length ≤ 5 ∧
    List.Sorted (fun v w : analyzer.NodeStats =>
      w.percentExclusive ≤ v.percentExclusive) a.hotNodes ∧
    ((∃ n ∈ analyzer.flatten a.root, (1/10 : ℚ) ≤ n.percentExclusive) →
      ∀ m ∈ a.hotNodes, (1/10 : ℚ) ≤ m.percentExclusive) ∧
    ((∀ n ∈ analyzer.flatten a.root, n.percentExclusive < 1/10) →
      (∃ n ∈ analyzer.flatten a.root, 0 < n.percentExclusive) →
      a.hotNodes =
        (List.insertionSort (fun v w : analyzer.NodeStats =>
            w.percentExclusive ≤ v.percentExclusive)
          ((analyzer.flatten a.root).filter (fun n => decide (0 < n.percentExclusive)))).take
          (min 5 (List.insertionSort (fun v w : analyzer.NodeStats =>
              w.percentExclusive ≤ v.percentExclusive)
            ((analyzer.flatten a.root).filter
              (fun n => decide (0 < n.percentExclusive)))).length)) ∧
    ((∃ n ∈ analyzer.flatten a.root, 0 < n.percentExclusive) → a.hotNodes ≠ []) := by
  rcases analyzer.analyze_ok_iff inp a h with ⟨e, p, -, -, ha⟩
  subst ha
  exact analyzer.selectHotNodes_spec (analyzer.flatten (analyzer.analyzePlan e p).root)

/-- Counterexample for C6 as stated: in the zero-root plan the child node
has 5 ms of self time (nonzero), yet because the root's inclusive time is
zero no percent field is ever assigned, no node qualifies as a candidate,
and the hotspot list is empty. -/
theorem analyze_hotspots_counterexample :
    (analyzer.Analyze (some examples.zeroRootExplain)).map
      (fun a => (a.hotNodes.length,
        (analyzer.flatten a.root).map analyzer.NodeStats.exclusiveTimeMs)) =
      .ok (0, [0, 5]) ∧ (0 : ℚ) < 5 := by
  constructor
  · norm_num [analyzer.Analyze, examples.zeroRootExplain, examples.zeroRootPlan,
      analyzer.analyzePlan, analyzer.buildStats, analyzer.buildStatsList,
      analyzer.deriveWarnings, analyzer.computeEstimateFactor, analyzer.epsilon,
      analyzer.effLoops, analyzer.copyBuffers, analyzer.annotatePercents,
      analyzer.annotatePercentsList, analyzer.flatten, analyzer.flattenList,
      analyzer.NodeStats.inclusiveTimeMs, analyzer.NodeStats.percentExclusive,
      analyzer.NodeStats.exclusiveTimeMs,
      analyzer.NodeStats.data, analyzer.BufferTotals.Total, FloatVal.geb, FloatVal.leb,
      Except.map, analyzer.selectHotNodes, List.insertionSort, List.orderedInsert]
  · norm_num

/-- Witness for the amended C6: the single-scan plan has a node with
positive share, so its hotspot list is non-empty. -/
theorem analyze_hotspots_witness :
    (analyzer.analyzePlan examples.scanExplain examples.scanNode).hotNodes ≠ [] := by
  have hex : ∃ n ∈ analyzer.flatten
      (analyzer.analyzePlan examples.scanExplain examples.scanNode).root,
      0 < n.percentExclusive := by
    norm_num [examples.scanExplain, examples.scanNode,
      analyzer.analyzePlan, analyzer.buildStats, analyzer.buildStatsList,
      analyzer.deriveWarnings, analyzer.computeEstimateFactor, analyzer.epsilon,
      analyzer.effLoops, analyzer.copyBuffers, analyzer.annotatePercents,
      analyzer.annotatePercentsList, analyzer.flatten, analyzer.flattenList,
      analyzer.NodeStats.inclusiveTimeMs, analyzer.NodeStats.percentExclusive,
      analyzer.NodeStats.data, analyzer.BufferTotals.Total, FloatVal.geb, FloatVal.leb]
  exact (analyze_hotspots (some examples.scanExplain)
    (analyzer.analyzePlan examples.scanExplain examples.scanNode) rfl).2.2.2.2 hex

/-! ## C2: diff classification -/

namespace diff

theorem classify_fst (entries : List Entry) (opts : Options) :
    (classify entries opts).1 = entries.filter (fun e => passesRegression e opts) := by
  induction entries with
  | nil => simp [classify]
  | cons e rest ih =>
    simp only [classify, List.filter_cons]
    by_cases h1 : passesRegression e opts = true
    · simp [h1, ih]
    · by_cases h2 : passesImprovement e opts = true <;>
        simp [h1, h2, ih]

theorem classify_snd (entries : List Entry) (opts : Options) :
    (classify entries opts).2 =
      entries.filter (fun e => !passesRegression e opts && passesImprovement e opts) := by
  induction entries with
  | nil => simp [classify]
  | cons e rest ih =>
    simp only [classify, List.filter_cons]
    by_cases h1 : passesRegression e opts = true
    · simp [h1, ih]
    · by_cases h2 : passesImprovement e opts = true <;>
        simp [h1, h2, ih]

theorem buildEntry_signature (sig : String) (b t : aggregated) :
    (buildEntry sig b t).signature = sig := rfl

theorem passesRegression_iff (e : Entry) (opts : Options) :
    passesRegression e opts = true ↔
      (opts.minSelfTimeDeltaMs ≤ e.deltaSelfMs ∧
        opts.minPercentChange ≤ e.percentChange) := by
  simp [passesRegression]

theorem passesImprovement_iff (e : Entry) (opts : Options) :
    passesImprovement e opts = true ↔
      (e.deltaSelfMs ≤ -opts.minSelfTimeDeltaMs ∧
        e.percentChange ≤ -opts.minPercentChange) := by
  simp [passesImprovement]

theorem improvement_not_regression (e : Entry) (opts : Options)
    (hpos : 0 < opts.minSelfTimeDeltaMs)
    (h : passesImprovement e opts = true) : passesRegression e opts = false := by
  rcases (passesImprovement_iff e opts).mp h with ⟨h1, -⟩
  rw [← Bool.not_eq_true]
  intro hc
  rcases (passesRegression_iff e opts).mp hc with ⟨h2, -⟩
  linarith

theorem compareReport_regressions (b t : analyzer.PlanAnalysis) (opts : Options)
    (cfg : config.DiffConfig) :
    (compareReport b t opts cfg).regressions =
      (if 0 < (applyDefaults opts cfg).maxItems then
        (List.insertionSort (fun x y : Entry => y.deltaSelfMs ≤ x.deltaSelfMs)
          (classify (entriesFor b t) (applyDefaults opts cfg)).1).take
          (applyDefaults opts cfg).maxItems.toNat
      else
        List.insertionSort (fun x y : Entry => y.deltaSelfMs ≤ x.deltaSelfMs)
          (classify (entriesFor b t) (applyDefaults opts cfg)).1) := rfl

theorem compareReport_improvements (b t : analyzer.PlanAnalysis) (opts : Options)
    (cfg : config.DiffConfig) :
    (compareReport b t opts cfg).improvements =
      (if 0 < (applyDefaults opts cfg).maxItems then
        (List.insertionSort (fun x y : Entry => x.deltaSelfMs ≤ y.deltaSelfMs)
          (classify (entriesFor b t) (applyDefaults opts cfg)).2).take
          (applyDefaults opts cfg).maxItems.toNat
      else
        List.insertionSort (fun x y : Entry => x.deltaSelfMs ≤ y.deltaSelfMs)
          (classify (entriesFor b t) (applyDefaults opts cfg)).2) := rfl

theorem mem_regressions_classified (b t : analyzer.PlanAnalysis) (opts : Options)
    (cfg : config.DiffConfig) (e : Entry)
    (h : e ∈ (compareReport b t opts cfg).regressions) :
    e ∈ (classify (entriesFor b t) (applyDefaults opts cfg)).1 := by
  rw [compareReport_regressions] at h
  split at h
  · exact (List.mem_insertionSort _).mp (List.mem_of_mem_take h)
  · exact (List.mem_insertionSort _).mp h

theorem mem_improvements_classified (b t : analyzer.PlanAnalysis) (opts : Options)
    (cfg : config.DiffConfig) (e : Entry)
    (h : e ∈ (compareReport b t opts cfg).improvements) :
    e ∈ (classify (entriesFor b t) (applyDefaults opts cfg)).2 := by
  rw [compareReport_improvements] at h
  split at h
  · exact (List.mem_insertionSort _).mp (List.mem_of_mem_take h)
  · exact (List.mem_insertionSort _).mp h

end diff

/-- C2: for every pair of analyses accepted by `Compare` (with the
effective minimum self-time delta positive, as it is under the built-in
defaults), a signature's entry is classified a regression exactly when its
delta self-time is at least the effective minimum delta and its percent
change at least the effective minimum percent; classified an improvement
exactly when both are at most the negations; entries classified neither
way are unreported; and no signature appears in both the regression and
the improvement list of the produced report. -/
theorem compare_classification (b t : analyzer.PlanAnalysis) (opts : diff.Options)
    (cfg : config.DiffConfig)
    (hpos : 0 < (diff.applyDefaults opts cfg).minSelfTimeDeltaMs) :
    diff.Compare (some b) (some t) opts cfg = .ok (diff.compareReport b t opts cfg) ∧
    (∀ s ∈ diff.unionKeys (diff.sigKeys b.root) (diff.sigKeys t.root),
      (diff.buildEntry s (diff.aggregate b.root s) (diff.aggregate t.root s) ∈
          (diff.classify (diff.entriesFor b t) (diff.applyDefaults opts cfg)).1 ↔
        ((diff.applyDefaults opts cfg).minSelfTimeDeltaMs ≤
            (diff.buildEntry s (diff.aggregate b.root s) (diff.aggregate t.root s)).deltaSelfMs ∧
          (diff.applyDefaults opts cfg).minPercentChange ≤
            (diff.buildEntry s (diff.aggregate b.root s) (diff.aggregate t.root s)).percentChange)) ∧
      (diff.buildEntry s (diff.aggregate b.root s) (diff.aggregate t.root s) ∈
          (diff.classify (diff.entriesFor b t) (diff.applyDefaults opts cfg)).2 ↔
        ((diff.buildEntry s (diff.aggregate b.root s) (diff.aggregate t.root s)).deltaSelfMs ≤
            -(diff.applyDefaults opts cfg).minSelfTimeDeltaMs ∧
          (diff.buildEntry s (diff.aggregate b.root s) (diff.aggregate t.root s)).percentChange ≤
            -(diff.applyDefaults opts cfg).minPercentChange))) ∧
    (∀ e1 ∈ (diff.compareReport b t opts cfg).regressions,
      ∀ e2 ∈ (diff.compareReport b t opts cfg).improvements,
        e1.signature ≠ e2.signature) := by
  refine ⟨rfl, ?_, ?_⟩
  · intro s hs
    have hmem : diff.buildEntry s (diff.aggregate b.root s) (diff.aggregate t.root s) ∈
        diff.entriesFor b t := by
      rw [diff.entriesFor]
      exact List.mem_map_of_mem _ hs
    constructor
    · rw [diff.classify_fst, List.mem_filter]
      constructor
      · rintro ⟨-, hp⟩
        exact (diff.passesRegression_iff _ _).mp hp
      · intro hr
        exact ⟨hmem, (diff.passesRegression_iff _ _).mpr hr⟩
    · rw [diff.classify_snd, List.mem_filter]
      constructor
      · rintro ⟨-, hp⟩
        rcases Bool.and_eq_true_iff.mp hp with ⟨-, h2⟩
        exact (diff.passesImprovement_iff _ _).mp h2
      · intro hr
        have himp : diff.passesImprovement
            (diff.buildEntry s (diff.aggregate b.root s) (diff.aggregate t.root s))
            (diff.applyDefaults opts cfg) = true :=
          (diff.passesImprovement_iff _ _).mpr hr
        refine ⟨hmem, ?_⟩
        rw [Bool.and_eq_true_iff]
        exact ⟨by rw [diff.improvement_not_regression _ _ hpos himp]; rfl, himp⟩
  · intro e1 h1 e2 h2 heq
    have h1c := diff.mem_regressions_classified b t opts cfg e1 h1
    have h2c := diff.mem_improvements_classified b t opts cfg e2 h2
    rw [diff.classify_fst, List.mem_filter] at h1c
    rw [diff.classify_snd, List.mem_filter] at h2c
    rcases h1c with ⟨hm1, hp1⟩
    rcases h2c with ⟨hm2, hp2⟩
    rw [diff.entriesFor] at hm1 hm2
    rcases List.mem_map.mp hm1 with ⟨s1, -, he1⟩
    rcases List.mem_map.mp hm2 with ⟨s2, -, he2⟩
    have hs1 : e1.signature = s1 := by rw [← he1]; rfl
    have hs2 : e2.signature = s2 := by rw [← he2]; rfl
    have hss : s1 = s2 := by rw [← hs1, ← hs2, heq]
    have hee : e1 = e2 := by rw [← he1, ← he2, hss]
    rw [hee] at hp1
    rcases Bool.and_eq_true_iff.mp hp2 with ⟨hn, -⟩
    rw [hp1] at hn
    simp at hn

/-- Witness for C2: comparing the 2 ms base against the 12 ms target under
default thresholds (min delta 2 ms, min percent 5%), the "Seq Scan"
signature (delta 10 ms, +500%) is classified a regression. -/
theorem compare_classification_witness :
    diff.buildEntry "Seq Scan"
      (diff.aggregate examples.baseAnalysis.root "Seq Scan")
      (diff.aggregate examples.targetAnalysis.root "Seq Scan") ∈
      (diff.classify (diff.entriesFor examples.baseAnalysis examples.targetAnalysis)
        (diff.applyDefaults {} config.defaults.diff)).1 := by
  have hpos : 0 < (diff.applyDefaults {} config.defaults.diff).minSelfTimeDeltaMs := by
    norm_num [diff.applyDefaults, config.defaults]
  have h := compare_classification examples.baseAnalysis examples.targetAnalysis
    {} config.defaults.diff hpos
  have hflatB : analyzer.flatten examples.baseAnalysis.root = [examples.selfStats 2] := by
    show analyzer.flatten (examples.selfStats 2) = [examples.selfStats 2]
    rw [examples.selfStats, analyzer.flatten_mk]
    simp [analyzer.flattenList]
  have hflatT : analyzer.flatten examples.targetAnalysis.root = [examples.selfStats 12] := by
    show analyzer.flatten (examples.selfStats 12) = [examples.selfStats 12]
    rw [examples.selfStats, analyzer.flatten_mk]
    simp [analyzer.flattenList]
  have hsig : ∀ q : ℚ, (diff.sigOfData (examples.selfStats q).data == "Seq Scan") = true :=
    fun q => rfl
  have hsig2 : ∀ q : ℚ, diff.sigOfData (examples.selfStats q).data = "Seq Scan" :=
    fun q => rfl
  have hs : "Seq Scan" ∈ diff.unionKeys (diff.sigKeys examples.baseAnalysis.root)
      (diff.sigKeys examples.targetAnalysis.root) := by
    rw [diff.unionKeys, diff.sigKeys, diff.sigKeys, hflatB, hflatT]
    simp only [List.map_cons, List.map_nil, hsig2]
    rw [List.mem_insertionSort]
    simp
  have hfilB : ((analyzer.flatten examples.baseAnalysis.root).map
        analyzer.NodeStats.data).filter (fun d => diff.sigOfData d == "Seq Scan") =
      [(examples.selfStats 2).data] := by
    rw [hflatB]
    simp only [List.map_cons, List.map_nil, List.filter_cons, List.filter_nil, hsig 2]
    simp
  have hfilT : ((analyzer.flatten examples.targetAnalysis.root).map
        analyzer.NodeStats.data).filter (fun d => diff.sigOfData d == "Seq Scan") =
      [(examples.selfStats 12).data] := by
    rw [hflatT]
    simp only [List.map_cons, List.map_nil, List.filter_cons, List.filter_nil, hsig 12]
    simp
  have hdataB : (examples.selfStats 2).data.exclusiveTimeMs = 2 := rfl
  have hdataT : (examples.selfStats 12).data.exclusiveTimeMs = 12 := rfl
  refine ((h.2.1 "Seq Scan" hs).1).mpr ⟨?_, ?_⟩
  · norm_num [diff.applyDefaults, config.defaults, diff.buildEntry, diff.aggregate,
      hfilB, hfilT, hdataB, hdataT]
  · norm_num [diff.applyDefaults, config.defaults, diff.buildEntry, diff.aggregate,
      hfilB, hfilT, hdataB, hdataT, diff.percentChange, analyzer.epsilon]

/-! ## C9: aggregation is invariant under sibling permutation -/

namespace diff

theorem sibPerm_flatten_data (a b : analyzer.NodeStats) (h : SiblingPerm a b) :
    List.Perm ((analyzer.flatten a).map analyzer.NodeStats.data)
      ((analyzer.flatten b).map analyzer.NodeStats.data) := by
  refine @SiblingPerm.rec
    (fun a b _ => List.Perm ((analyzer.flatten a).map analyzer.NodeStats.data)
      ((analyzer.flatten b).map analyzer.NodeStats.data))
    (fun l l' _ => List.Perm ((analyzer.flattenList l).map analyzer.NodeStats.data)
      ((analyzer.flattenList l').map analyzer.NodeStats.data))
    ?_ ?_ ?_ ?_ ?_ a b h
  · intro d cs es hf ihf
    rw [analyzer.flatten_mk, analyzer.flatten_mk, List.map_cons, List.map_cons,
      analyzer.data_mk, analyzer.data_mk]
    exact ihf.cons d
  · exact List.Perm.refl _
  · intro t t' l l' hs hl ihs ihl
    rw [analyzer.flattenList_cons, analyzer.flattenList_cons, List.map_append,
      List.map_append]
    exact ihs.append ihl
  · intro t u l
    rw [analyzer.flattenList_cons, analyzer.flattenList_cons,
      analyzer.flattenList_cons, analyzer.flattenList_cons]
    simp only [List.map_append]
    exact List.perm_append_comm_assoc _ _ _
  · intro l m n hlm hmn ihlm ihmn
    exact ihlm.trans ihmn

end diff

/-- C9: the per-signature aggregated totals (summed self time, actual and
estimated rows, buffers, temp blocks) computed by the diff engine's
aggregation are invariant under any permutation of each node's children
list in the analyzed tree. -/
theorem aggregate_sibling_perm (t t' : analyzer.NodeStats)
    (h : diff.SiblingPerm t t') (sig : String) :
    diff.aggregate t sig = diff.aggregate t' sig := by
  have hp := diff.sibPerm_flatten_data t t' h
  have hf := hp.filter (fun d => diff.sigOfData d == sig)
  simp only [diff.aggregate, diff.aggregated.mk.injEq]
  exact ⟨(hf.map _).sum_eq, (hf.map _).sum_eq, (hf.map _).sum_eq,
    (hf.map _).sum_eq, (hf.map _).sum_eq⟩

/-- Witness for C9: swapping the two children of the witness tree leaves
the "Seq Scan · users" aggregation unchanged. -/
theorem aggregate_sibling_perm_witness :
    diff.aggregate examples.permTreeA "Seq Scan · users" =
      diff.aggregate examples.permTreeB "Seq Scan · users" := by
  refine aggregate_sibling_perm _ _ ?_ _
  exact diff.SiblingPerm.node examples.permParentData _ _
    (diff.ForestPerm.swap examples.permChildA examples.permChildB [])
